import Mathlib

/-!
Verification of the ArduinoScript translation pipeline (lexer, recursive-descent
parser, code generator) against its natural-language specification.

The Python sources are embedded shallowly:
* dynamic Python values that flow through tokens and AST nodes become `PyVal`;
* the regex-alternation scanner of `lexer.py` becomes `tokenize`, reproducing
  Python `re` semantics (leftmost position, first alternative in declaration
  order, each alternative greedy by itself, unmatched characters skipped);
* the stateful parser of `parser.py` becomes functions from `PSt` to
  `Except Err (α × PSt)`; Python exceptions (`SyntaxError`, `AttributeError`
  on `None`, `UnboundLocalError`, `NameError`) become `Err` values; `while`
  loops become fuel recursion, where the fuel supplied at each call site is
  large enough that fuel exhaustion is equivalent to divergence of the source
  loop;
* the code generator of `codegen.py` becomes functions from `GenSt` to
  `Except String GenSt` (the `String` names the Python exception class that
  would be raised);
* file input/output of `compiler.py` is modelled over an association-list
  file system.
-/

namespace AScript

/-- A dynamic Python value as it appears in token values and AST fields:
an `int` (also the result of integer literal coercion), a `str`, or a `float`
(kept as its matched literal text, which is enough because no verified claim
inspects float arithmetic). -/
inductive PyVal where
  | vInt (n : Int)
  | vStr (s : String)
  | vFloat (s : String)
deriving DecidableEq, Repr

/-- Lower-case a character the way Python `str.lower` does on the alphabets
used by the language: ASCII letters and the Cyrillic range `А`..`Я`. -/
def pyLowerChar (c : Char) : Char :=
  if 'A' ≤ c ∧ c ≤ 'Z' then Char.ofNat (c.toNat + 32)
  else if 'А' ≤ c ∧ c ≤ 'Я' then Char.ofNat (c.toNat + 32)
  else c

/-- Upper-case a character the way Python `str.upper` does on the alphabets
used by the language: ASCII letters and the Cyrillic range `а`..`я`. -/
def pyUpperChar (c : Char) : Char :=
  if 'a' ≤ c ∧ c ≤ 'z' then Char.ofNat (c.toNat - 32)
  else if 'а' ≤ c ∧ c ≤ 'я' then Char.ofNat (c.toNat - 32)
  else c

/-- Python `str.lower` restricted to the alphabets the language uses. -/
def pyLower (s : String) : String := String.mk (s.data.map pyLowerChar)

/-- Python `str.upper` restricted to the alphabets the language uses. -/
def pyUpper (s : String) : String := String.mk (s.data.map pyUpperChar)

/-- Python `str(float(s))` for a literal `s` matched by `\d+\.\d+`:
leading zeros of the integer part and trailing zeros of the fractional part
are dropped (keeping at least one digit on each side), which agrees with the
`repr` of floats obtained from short decimal literals. -/
def floatRepr (s : String) : String :=
  let parts := s.splitOn "."
  match parts with
  | [ip, fp] =>
      let ipTrim :=
        let dropped := ip.data.dropWhile (fun c => c = '0')
        if dropped = [] then "0" else String.mk dropped
      let fpTrim :=
        let dropped := fp.data.reverse.dropWhile (fun c => c = '0')
        if dropped = [] then "0" else String.mk dropped.reverse
      ipTrim ++ "." ++ fpTrim
  | _ => s

/-- Python `str` on the dynamic values we track. -/
def pyStr : PyVal → String
  | .vInt n => toString n
  | .vStr s => s
  | .vFloat s => floatRepr s

/-- Python truthiness of the dynamic values we track. -/
def pyTruthy : PyVal → Bool
  | .vInt n => n ≠ 0
  | .vStr s => s ≠ ""
  | .vFloat s => s.data.any (fun c => '1' ≤ c ∧ c ≤ '9')

/-- Python `str.upper` applied to a dynamic value; a non-string raises
`AttributeError`, mirrored by `none`. -/
def pyValUpper : PyVal → Option PyVal
  | .vStr s => some (.vStr (pyUpper s))
  | _ => none

/-- The `KEYWORDS` table of `keywords.py`: surface keyword to token kind. -/
def KEYWORDS : List (String × String) :=
  [("цикл", "LOOP"), ("функция", "FUNCTION"), ("если", "IF"), ("иначе", "ELSE"),
   ("иначе_если", "ELIF"), ("для", "FOR"), ("пока", "WHILE"), ("прервать", "BREAK"),
   ("продолжить", "CONTINUE"), ("вернуть", "RETURN"), ("конец", "END"),
   ("целое", "INT"), ("дробное", "FLOAT"), ("булево", "BOOL"), ("символ", "CHAR"),
   ("строка", "STRING"), ("массив", "ARRAY"), ("пусто", "VOID"),
   ("истина", "TRUE"), ("ложь", "FALSE"), ("высоко", "HIGH"), ("низко", "LOW"),
   ("включено", "ON"), ("выключено", "OFF"),
   ("вход", "INPUT"), ("выход", "OUTPUT"), ("вход_подтяжка", "INPUT_PULLUP"),
   ("аналог", "ANALOG"), ("шим", "PWM"),
   ("пин", "PIN"), ("режим", "PINMODE"), ("цифрзапись", "DIGITALWRITE"),
   ("цифрчтение", "DIGITALREAD"), ("аналогзапись", "ANALOGWRITE"),
   ("аналогчтение", "ANALOGREAD"), ("ждать", "DELAY"), ("миллис", "MILLIS"),
   ("микрос", "MICROS"), ("прерывание", "ATTACHINTERRUPT"),
   ("отключить_прерывание", "DETACHINTERRUPT"), ("пауза", "PAUSE"),
   ("случайное", "RANDOM"),
   ("последовательный", "SERIAL"), ("начать_последовательный", "SERIAL_BEGIN"),
   ("печать", "PRINT"), ("печать_строка", "PRINTLN"), ("доступно", "AVAILABLE"),
   ("читать", "READ"), ("найти", "FIND"), ("найти_до", "FIND_UNTIL"),
   ("очистить", "FLUSH"),
   ("пи", "PI"), ("макс", "MAX"), ("мин", "MIN"), ("ограничить", "CONSTRAIN"),
   ("отобразить", "MAP"), ("степень", "POW"), ("квадрат", "SQ"),
   ("корень", "SQRT"), ("абсолют", "ABS"), ("синус", "SIN"), ("косинус", "COS"),
   ("тангенс", "TAN"), ("случайное_семя", "RANDOM_SEED"),
   ("бит_читать", "BITREAD"), ("бит_записать", "BITWRITE"),
   ("бит_установить", "BITSET"), ("бит_очистить", "BITCLEAR"),
   ("изменить", "CHANGE"), ("возрастание", "RISING"), ("убывание", "FALLING"),
   ("секунды", "SECONDS"), ("минуты", "MINUTES"), ("часы", "HOURS"),
   ("и", "AND"), ("или", "OR"), ("не", "NOT"), ("больше", "GT"),
   ("меньше", "LT"), ("равно", "EQ"), ("не_равно", "NEQ"),
   ("больше_равно", "GTE"), ("меньше_равно", "LTE")]

/-- Keyword lookup in `KEYWORDS`. -/
def kwLookup (s : String) : Option String :=
  (KEYWORDS.find? (fun p => p.1 = s)).map (fun p => p.2)

/-- The `PIN_ALIASES` table of `keywords.py`: symbolic device name to
canonical pin (an `int` for digital pins, a string for analog pins). -/
def PIN_ALIASES : List (String × PyVal) :=
  [("светодиод", .vInt 13), ("кнопка", .vInt 2), ("потенциометр", .vStr "A0"),
   ("термистор", .vStr "A1"), ("фоторезистор", .vStr "A2"), ("зуммер", .vInt 3),
   ("серво", .vInt 9), ("ультразвук_триггер", .vInt 10),
   ("ультразвук_эхо", .vInt 11), ("дисплей_sda", .vStr "A4"),
   ("дисплей_scl", .vStr "A5")]

/-- Alias lookup in `PIN_ALIASES`. -/
def aliasLookup (s : String) : Option PyVal :=
  (PIN_ALIASES.find? (fun p => p.1 = s)).map (fun p => p.2)

/-! ## Lexer (`lexer.py`) -/

/-- A token: kind, dynamic value, and the 1-based line/column where the match
started. -/
structure Tok where
  ty : String
  val : PyVal
  line : Nat
  col : Nat
deriving DecidableEq, Repr

/-- Length of the longest run of characters satisfying `p` at the head. -/
def takeLen (p : Char → Bool) : List Char → Nat
  | [] => 0
  | c :: cs => if p c then takeLen p cs + 1 else 0

def isPyDigit (c : Char) : Bool := '0' ≤ c ∧ c ≤ '9'

def isHexDigitC (c : Char) : Bool :=
  isPyDigit c ∨ ('a' ≤ c ∧ c ≤ 'f') ∨ ('A' ≤ c ∧ c ≤ 'F')

/-- First character of the identifier pattern `[a-zA-Zа-яА-Я_]`. -/
def isIdStart (c : Char) : Bool :=
  ('a' ≤ c ∧ c ≤ 'z') ∨ ('A' ≤ c ∧ c ≤ 'Z') ∨
  ('а' ≤ c ∧ c ≤ 'я') ∨ ('А' ≤ c ∧ c ≤ 'Я') ∨ c = '_'

/-- Continuation character of the identifier pattern. -/
def isIdCont (c : Char) : Bool := isIdStart c ∨ isPyDigit c

/-- Match length of the `WHITESPACE` pattern `[ \t]+`. -/
def mWhitespace (cs : List Char) : Option Nat :=
  let n := takeLen (fun c => c = ' ' ∨ c = '\t') cs
  if n = 0 then none else some n

/-- Match length of the `NEWLINE` pattern `\n`. -/
def mNewline : List Char → Option Nat
  | '\n' :: _ => some 1
  | _ => none

/-- Match length of the `COMMENT` pattern `//[^\n]*`. -/
def mComment : List Char → Option Nat
  | '/' :: '/' :: rest => some (2 + takeLen (fun c => c ≠ '\n') rest)
  | _ => none

/-- Offset of the earliest `*/` in a character list (lazy matching of
`[\s\S]*?` in the block-comment pattern). -/
def findClose : List Char → Option Nat
  | '*' :: '/' :: _ => some 0
  | _ :: cs => (findClose cs).map (fun k => k + 1)
  | [] => none

/-- Match length of the `ML_COMMENT` pattern `/\*[\s\S]*?\*/`. -/
def mMlComment : List Char → Option Nat
  | '/' :: '*' :: rest => (findClose rest).map (fun k => k + 4)
  | _ => none

/-- Match length of the `FLOAT` pattern `\d+\.\d+`. -/
def mFloat (cs : List Char) : Option Nat :=
  let n1 := takeLen isPyDigit cs
  if n1 = 0 then none
  else
    match cs.drop n1 with
    | '.' :: rest =>
        let n2 := takeLen isPyDigit rest
        if n2 = 0 then none else some (n1 + 1 + n2)
    | _ => none

/-- Match length of the `INTEGER` pattern `\d+`. -/
def mInteger (cs : List Char) : Option Nat :=
  let n := takeLen isPyDigit cs
  if n = 0 then none else some n

/-- Match length of the `HEX` pattern `0x[0-9A-Fa-f]+` (unreachable in
practice because `INTEGER` precedes it in the alternation). -/
def mHex : List Char → Option Nat
  | '0' :: 'x' :: rest =>
      let n := takeLen isHexDigitC rest
      if n = 0 then none else some (n + 2)
  | _ => none

/-- Match length of the `BINARY` pattern `0b[01]+` (unreachable, as `HEX`). -/
def mBinary : List Char → Option Nat
  | '0' :: 'b' :: rest =>
      let n := takeLen (fun c => c = '0' ∨ c = '1') rest
      if n = 0 then none else some (n + 2)
  | _ => none

/-- Match length of the `STRING` pattern `"[^"]*"`. -/
def mString : List Char → Option Nat
  | '"' :: rest =>
      let n := takeLen (fun c => c ≠ '"') rest
      match rest.drop n with
      | '"' :: _ => some (n + 2)
      | _ => none
  | _ => none

/-- Match length of the `CHAR` pattern `'[^']'`. -/
def mCharLit : List Char → Option Nat
  | '\'' :: c :: '\'' :: _ => if c = '\'' then none else some 3
  | _ => none

/-- Match length of a fixed literal pattern. -/
def mLit (pat : List Char) (cs : List Char) : Option Nat :=
  if pat.isPrefixOf cs then some pat.length else none

/-- Match length of the `PIN_PREFIX` pattern `[DA]\d+`. -/
def mPinPrefix : List Char → Option Nat
  | c :: rest =>
      if c = 'D' ∨ c = 'A' then
        let n := takeLen isPyDigit rest
        if n = 0 then none else some (n + 1)
      else none
  | [] => none

/-- Match length of the `ID` pattern `[a-zA-Zа-яА-Я_][a-zA-Zа-яА-Я0-9_]*`. -/
def mId : List Char → Option Nat
  | c :: rest => if isIdStart c then some (takeLen isIdCont rest + 1) else none
  | [] => none

/-- The ordered token specification list of `Lexer.__init__`, with each
regular expression realised as a greedy matcher.  Python `re` alternation
picks, at each position, the first alternative in this order that matches. -/
def tokenSpecs : List (String × (List Char → Option Nat)) :=
  [("WHITESPACE", mWhitespace), ("NEWLINE", mNewline),
   ("COMMENT", mComment), ("ML_COMMENT", mMlComment),
   ("FLOAT", mFloat), ("INTEGER", mInteger), ("HEX", mHex), ("BINARY", mBinary),
   ("STRING", mString), ("CHAR", mCharLit),
   ("ASSIGN", mLit ['=']), ("PLUS", mLit ['+']), ("MINUS", mLit ['-']),
   ("MULTIPLY", mLit ['*']), ("DIVIDE", mLit ['/']), ("MODULO", mLit ['%']),
   ("POWER", mLit ['*', '*']),
   ("EQ", mLit ['=', '=']), ("NEQ", mLit ['!', '=']), ("LT", mLit ['<']),
   ("LTE", mLit ['<', '=']), ("GT", mLit ['>']), ("GTE", mLit ['>', '=']),
   ("AND", mLit ['&', '&']), ("OR", mLit ['|', '|']), ("NOT", mLit ['!']),
   ("LPAREN", mLit ['(']), ("RPAREN", mLit [')']),
   ("LBRACE", mLit ['{']), ("RBRACE", mLit ['}']),
   ("LBRACKET", mLit ['[']), ("RBRACKET", mLit [']']),
   ("COMMA", mLit [',']), ("COLON", mLit [':']), ("SEMICOLON", mLit [';']),
   ("DOT", mLit ['.']), ("ARROW", mLit ['-', '>']),
   ("PIN_PREFIX", mPinPrefix), ("ID", mId)]

/-- First matching specification in a given list. -/
def firstMatchIn : List (String × (List Char → Option Nat)) → List Char →
    Option (String × Nat)
  | [], _ => none
  | (name, m) :: rest, cs =>
      match m cs with
      | some n => some (name, n)
      | none => firstMatchIn rest cs

/-- First matching token specification at the current position, in
declaration order. -/
def firstMatch (cs : List Char) : Option (String × Nat) :=
  firstMatchIn tokenSpecs cs

/-- Decimal digit value. -/
def digitVal (c : Char) : Nat := c.toNat - '0'.toNat

/-- Value of a decimal digit string (Python `int`). -/
def decToNat (cs : List Char) : Nat :=
  cs.foldl (fun acc c => acc * 10 + digitVal c) 0

/-- Hexadecimal digit value. -/
def hexDigitVal (c : Char) : Nat :=
  if '0' ≤ c ∧ c ≤ '9' then c.toNat - '0'.toNat
  else if 'a' ≤ c ∧ c ≤ 'f' then c.toNat - 'a'.toNat + 10
  else if 'A' ≤ c ∧ c ≤ 'F' then c.toNat - 'A'.toNat + 10
  else 0

/-- Value of `0x...` (Python `int(value, 16)`). -/
def hexToNat (cs : List Char) : Nat :=
  (cs.drop 2).foldl (fun acc c => acc * 16 + hexDigitVal c) 0

/-- Value of `0b...` (Python `int(value, 2)`). -/
def binToNat (cs : List Char) : Nat :=
  (cs.drop 2).foldl (fun acc c => acc * 2 + digitVal c) 0

/-- Token post-processing of `Lexer.tokenize`: keyword reclassification for
identifiers and literal coercion for numeric/string/char kinds. -/
def classify (kind : String) (text : List Char) : String × PyVal :=
  if kind = "ID" then
    match kwLookup (String.mk text) with
    | some k => (k, .vStr (String.mk text))
    | none => ("ID", .vStr (String.mk text))
  else if kind = "INTEGER" then ("INTEGER", .vInt (decToNat text))
  else if kind = "FLOAT" then ("FLOAT", .vFloat (String.mk text))
  else if kind = "HEX" then ("HEX", .vInt (hexToNat text))
  else if kind = "BINARY" then ("BINARY", .vInt (binToNat text))
  else if kind = "STRING" then
    ("STRING", .vStr (String.mk ((text.drop 1).dropLast)))
  else if kind = "CHAR" then
    ("CHAR", .vStr (String.mk ((text.drop 1).dropLast)))
  else (kind, .vStr (String.mk text))

/-- Number of newline characters in a list. -/
def countNl (cs : List Char) : Nat := (cs.filter (fun c => c = '\n')).length

/-- The scanning loop of `Lexer.tokenize`.  `fuel` bounds the number of
scanning steps; every step consumes at least one character, so
`fuel = cs.length` never runs out.  Unmatched characters are skipped without
producing a token and without touching line/column bookkeeping, exactly as
`re.finditer` does. -/
def lexGo : Nat → List Char → Nat → Nat → List Tok
  | 0, _, line, col => [⟨"EOF", .vStr "", line, col⟩]
  | _ + 1, [], line, col => [⟨"EOF", .vStr "", line, col⟩]
  | fuel + 1, c :: cs, line, col =>
      match firstMatch (c :: cs) with
      | none => lexGo fuel cs line col
      | some (kind, n) =>
          let text := (c :: cs).take n
          let rest := (c :: cs).drop n
          if kind = "NEWLINE" then lexGo fuel rest (line + 1) 1
          else if kind = "WHITESPACE" then lexGo fuel rest line (col + n)
          else if kind = "COMMENT" ∨ kind = "ML_COMMENT" then
            let nl := countNl text
            lexGo fuel rest (line + nl) (if nl > 0 then 1 else col + n)
          else
            let kv := classify kind text
            ⟨kv.1, kv.2, line, col⟩ :: lexGo fuel rest line (col + n)

/-- `Lexer.tokenize`: scan the whole source, then append the `EOF` token. -/
def tokenize (src : String) : List Tok :=
  lexGo src.data.length src.data 1 1

/-! ## Parser (`parser.py`) -/

/-- Errors surfaced by the embedded pipeline.  `syn` is a raised
`SyntaxError` with its message; `crash` is any other Python exception
(`AttributeError` from attribute access on `None`, `UnboundLocalError`,
`NameError`), identified by the exception class name; `fuel` marks
exhaustion of loop fuel, which (with the fuel budgets chosen at every call
site) happens exactly when the corresponding Python loop diverges. -/
inductive Err where
  | syn (msg : String)
  | crash (name : String)
  | fuel
deriving DecidableEq, Repr

/-- A symbol-table entry (`Parser.symbols`). -/
inductive Sym where
  | pin (mode : PyVal)
  | var (ty : String) (value : Option PyVal)
  | func (params : List (String × PyVal))
deriving DecidableEq, Repr

/-- Python dict update: replace the binding in place if the key is present,
otherwise append it. -/
def symSet : List (PyVal × Sym) → PyVal → Sym → List (PyVal × Sym)
  | [], k, v => [(k, v)]
  | (k0, v0) :: rest, k, v =>
      if k0 = k then (k, v) :: rest else (k0, v0) :: symSet rest k v

/-- Parser state: the token list (never mutated), the cursor `pos`, the
current token (`None` once the cursor has moved past the end), and the
symbol table. -/
structure PSt where
  tokens : List Tok
  pos : Nat
  current : Option Tok
  symbols : List (PyVal × Sym)
deriving Repr

/-- `Parser.advance`: load `tokens[pos]` as the current token and move the
cursor, or set the current token to `None` at the end. -/
def adv (st : PSt) : PSt :=
  if h : st.pos < st.tokens.length then
    { st with current := some (st.tokens.get ⟨st.pos, h⟩), pos := st.pos + 1 }
  else { st with current := none }

/-- Read `current_token` where Python accesses an attribute unconditionally:
on `None` this raises `AttributeError`. -/
def curT (st : PSt) : Except Err Tok :=
  match st.current with
  | some t => .ok t
  | none => .error (.crash "AttributeError")

/-- `Parser.expect`: consume the current token if its kind matches, else
raise a positioned `SyntaxError`; with no current token the error-message
construction itself raises `AttributeError`. -/
def expectT (st : PSt) (tt : String) : Except Err (Tok × PSt) :=
  match st.current with
  | some t =>
      if t.ty = tt then .ok (t, adv st)
      else .error (.syn s!"Строка {t.line}:{t.col} - Ожидался {tt}, получен {t.ty}")
  | none => .error (.crash "AttributeError")

/-- A parsed condition: either a bare operand value or one binary
comparison (`BinaryOpNode`). -/
inductive CondV where
  | val (v : PyVal)
  | binOp (left : PyVal) (op : String) (right : PyVal)
deriving DecidableEq, Repr

/-- The AST node variants of `parser.py`.  `loopN` covers `LoopNode`, which
the parser also uses for `while` and `for` bodies; `funcCall` covers
`FunctionCallNode`, whose `children` are used only by function
declarations. -/
inductive Node where
  | program (children : List Node)
  | pinDecl (pin : PyVal) (mode : PyVal) (value : Option PyVal)
  | digitalWrite (pin : PyVal) (value : PyVal)
  | digitalRead (pin : PyVal)
  | analogWrite (pin : PyVal) (value : PyVal)
  | analogRead (pin : PyVal)
  | delayN (duration : PyVal)
  | serialBegin (baud : PyVal)
  | serialPrint (value : PyVal) (newline : Bool)
  | loopN (children : List Node)
  | ifN (cond : CondV) (children : List Node)
  | varDecl (name : PyVal) (ty : String) (value : Option PyVal)
  | assign (name : PyVal) (value : PyVal)
  | funcCall (name : PyVal) (args : List PyVal) (children : List Node)
  | binOp (left : PyVal) (op : String) (right : PyVal)
deriving Repr

/-- Loop measure: tokens not yet moved past, plus one if a current token is
loaded.  `adv` strictly decreases it whenever a current token is loaded. -/
def msr (st : PSt) : Nat :=
  (st.tokens.length - st.pos) + (if st.current.isSome then 1 else 0)

/-- The error of `Parser.parse_pin_declaration` when the mode token is
missing: note that unlike `expect` it carries no line/column. -/
def pinModeErrMsg : String := "Ожидался режим пина (выход, вход, вход_подтяжка)"

/-- The error of `Parser.parse_pin_declaration` when the pin token is
missing. -/
def pinNumErrMsg : String := "Ожидался номер пина"

/-- `Parser.parse_pin_declaration`. -/
def parsePinDeclaration (st : PSt) : Except Err (Node × PSt) :=
  match expectT st "PIN" with
  | .error e => .error e
  | .ok (_, st1) =>
    match st1.current with
    | none => .error (.crash "AttributeError")
    | some t =>
      if t.ty = "INTEGER" ∨ t.ty = "PIN_PREFIX" ∨ t.ty = "ID" then
        let pin := t.val
        let st2 := adv st1
        match expectT st2 "ASSIGN" with
        | .error e => .error e
        | .ok (_, st3) =>
          match st3.current with
          | none => .error (.crash "AttributeError")
          | some t2 =>
            if t2.ty = "OUTPUT" ∨ t2.ty = "INPUT" ∨ t2.ty = "INPUT_PULLUP" then
              let mode := t2.val
              let st4 := adv st3
              let vs :=
                match st4.current with
                | some t3 =>
                    if t3.ty = "ASSIGN" then
                      let st5 := adv st4
                      match st5.current with
                      | none => none
                      | some t4 =>
                          if t4.ty = "HIGH" ∨ t4.ty = "LOW" ∨ t4.ty = "INTEGER" then
                            some ((some t4.val, adv st5))
                          else some ((none, st5))
                    else some ((none, st4))
                | none => some ((none, st4))
              match vs with
              | none => .error (.crash "AttributeError")
              | some (value, st6) =>
                  let st7 := { st6 with symbols := symSet st6.symbols pin (.pin mode) }
                  .ok (.pinDecl pin mode value, st7)
            else .error (.syn pinModeErrMsg)
      else .error (.syn pinNumErrMsg)

/-- The argument loop of `Parser.parse_function_call`: every iteration
appends the current token's value (upper-cased for `HIGH`/`LOW` via
`str.upper`, an `AttributeError` on non-strings) and advances, consuming an
optional comma. -/
def parseFCArgs : Nat → PSt → List PyVal → Except Err (List PyVal × PSt)
  | 0, _, _ => .error .fuel
  | fuel + 1, st, args =>
    match st.current with
    | none => .ok (args, st)
    | some t =>
      if t.ty = "RPAREN" then .ok (args, st)
      else
        match (if t.ty = "HIGH" ∨ t.ty = "LOW" then pyValUpper t.val else some t.val) with
        | none => .error (.crash "AttributeError")
        | some a =>
          let st1 := adv st
          let st2 :=
            match st1.current with
            | some c => if c.ty = "COMMA" then adv st1 else st1
            | none => st1
          parseFCArgs fuel st2 (args ++ [a])

/-- The recognized-call-name dispatch at the end of
`Parser.parse_function_call`. -/
def mkCallNode (fname : PyVal) (args : List PyVal) : Node :=
  if fname = .vStr "цифрзапись" then
    match args with
    | a :: b :: _ => .digitalWrite a b
    | _ => .funcCall fname args []
  else if fname = .vStr "аналогзапись" then
    match args with
    | a :: b :: _ => .analogWrite a b
    | _ => .funcCall fname args []
  else if fname = .vStr "цифрчтение" then
    match args with
    | a :: _ => .digitalRead a
    | _ => .funcCall fname args []
  else if fname = .vStr "аналогчтение" then
    match args with
    | a :: _ => .analogRead a
    | _ => .funcCall fname args []
  else if fname = .vStr "ждать" then
    match args with
    | a :: _ => .delayN a
    | _ => .funcCall fname args []
  else if fname = .vStr "печать" then
    .serialPrint (args.headD (.vStr "")) false
  else if fname = .vStr "печать_строка" then
    .serialPrint (args.headD (.vStr "")) true
  else .funcCall fname args []

/-- `Parser.parse_function_call`. -/
def parseFunctionCall (st : PSt) : Except Err (Node × PSt) :=
  match curT st with
  | .error e => .error e
  | .ok t =>
    let fname := t.val
    let st1 := adv st
    match expectT st1 "LPAREN" with
    | .error e => .error e
    | .ok (_, st2) =>
      match parseFCArgs (msr st2 + 1) st2 [] with
      | .error e => .error e
      | .ok (args, st3) =>
        match expectT st3 "RPAREN" with
        | .error e => .error e
        | .ok (_, st4) => .ok (mkCallNode fname args, st4)

/-- `Parser.parse_serial_begin`. -/
def parseSerialBegin (st : PSt) : Except Err (Node × PSt) :=
  match expectT st "SERIAL_BEGIN" with
  | .error e => .error e
  | .ok (_, st1) =>
    match expectT st1 "LPAREN" with
    | .error e => .error e
    | .ok (_, st2) =>
      match st2.current with
      | none => .error (.crash "AttributeError")
      | some t =>
        let baud := t.val
        if t.ty ≠ "INTEGER" then
          .error (.syn "Ожидалась скорость передачи (целое число)")
        else
          let st3 := adv st2
          match expectT st3 "RPAREN" with
          | .error e => .error e
          | .ok (_, st4) => .ok (.serialBegin baud, st4)

/-- `Parser.parse_expression`: at most one binary comparison; when the
leading token is not an operand the trailing `return left` reads an unbound
local (`UnboundLocalError`). -/
def parseExpression (st : PSt) : Except Err (CondV × PSt) :=
  match st.current with
  | none => .error (.crash "AttributeError")
  | some t =>
    if t.ty = "INTEGER" ∨ t.ty = "FLOAT" ∨ t.ty = "ID" then
      let left := t.val
      let st1 := adv st
      match st1.current with
      | none => .ok (.val left, st1)
      | some t2 =>
        if t2.ty = "EQ" ∨ t2.ty = "NEQ" ∨ t2.ty = "LT" ∨ t2.ty = "LTE" ∨
           t2.ty = "GT" ∨ t2.ty = "GTE" then
          let op := t2.ty
          let st2 := adv st1
          match st2.current with
          | none => .error (.crash "AttributeError")
          | some t3 =>
            if t3.ty = "INTEGER" ∨ t3.ty = "FLOAT" ∨ t3.ty = "ID" then
              .ok (.binOp left op t3.val, adv st2)
            else .ok (.val left, st2)
        else .ok (.val left, st1)
    else .error (.crash "UnboundLocalError")

/-- `Parser.parse_variable_declaration`. -/
def parseVariableDeclaration (st : PSt) : Except Err (Node × PSt) :=
  match st.current with
  | none => .error (.crash "AttributeError")
  | some t =>
    let vty := t.ty
    let st1 := adv st
    match expectT st1 "ID" with
    | .error e => .error e
    | .ok (idt, st2) =>
      let vs :=
        match st2.current with
        | some t2 =>
            if t2.ty = "ASSIGN" then
              let st3 := adv st2
              match st3.current with
              | none => none
              | some t3 =>
                  if t3.ty = "INTEGER" ∨ t3.ty = "FLOAT" ∨ t3.ty = "STRING" ∨
                     t3.ty = "TRUE" ∨ t3.ty = "FALSE" then
                    some ((some t3.val, adv st3))
                  else some ((none, st3))
            else some ((none, st2))
        | none => some ((none, st2))
      match vs with
      | none => .error (.crash "AttributeError")
      | some (value, st4) =>
        let st5 := { st4 with symbols := symSet st4.symbols idt.val (.var vty value) }
        .ok (.varDecl idt.val vty value, st5)

/-- `Parser.parse_assignment`: note the unguarded read of the value token. -/
def parseAssignment (st : PSt) : Except Err (Node × PSt) :=
  match st.current with
  | none => .error (.crash "AttributeError")
  | some t =>
    let name := t.val
    let st1 := adv st
    match expectT st1 "ASSIGN" with
    | .error e => .error e
    | .ok (_, st2) =>
      match st2.current with
      | none => .error (.crash "AttributeError")
      | some t2 => .ok (.assign name t2.val, adv st2)

/-- True for the call kinds dispatched to `parse_function_call`. -/
def isCallTy (s : String) : Bool :=
  s = "DIGITALWRITE" ∨ s = "ANALOGWRITE" ∨ s = "DELAY" ∨ s = "PRINT" ∨ s = "PRINTLN"

/-- `Parser.peek` compared against `ASSIGN`, as used by the top-level
dispatch (`self.peek() and self.peek().type == 'ASSIGN'`). -/
def peekIsAssign (st : PSt) : Bool :=
  match st.tokens.get? st.pos with
  | some nx => nx.ty = "ASSIGN"
  | none => false

/-- The restricted statement loops shared by `parse_if` (body and
`else`/`elif` block), `parse_while`, `parse_for` and
`parse_function_declaration`: collect `digitalWrite`/`analogWrite`/`delay`
calls until a stop kind, skipping everything else. -/
def parseRestrictedBody (stops : List String) :
    Nat → PSt → List Node → Except Err (List Node × PSt)
  | 0, _, _ => .error .fuel
  | fuel + 1, st, acc =>
    match st.current with
    | none => .ok (acc, st)
    | some t =>
      if t.ty ∈ stops then .ok (acc, st)
      else if t.ty = "DIGITALWRITE" ∨ t.ty = "ANALOGWRITE" ∨ t.ty = "DELAY" then
        match parseFunctionCall st with
        | .error e => .error e
        | .ok (n, st2) => parseRestrictedBody stops fuel st2 (acc ++ [n])
      else parseRestrictedBody stops fuel (adv st) acc

/-- Consume an optional trailing `END` (`if current and type == 'END':
advance`). -/
def consumeOptEnd (st : PSt) : PSt :=
  match st.current with
  | some t => if t.ty = "END" then adv st else st
  | none => st

/-- `Parser.parse_if`. -/
def parseIf (st : PSt) : Except Err (Node × PSt) :=
  match expectT st "IF" with
  | .error e => .error e
  | .ok (_, st1) =>
    match parseExpression st1 with
    | .error e => .error e
    | .ok (cond, st2) =>
      match expectT st2 "COLON" with
      | .error e => .error e
      | .ok (_, st3) =>
        match parseRestrictedBody ["EOF", "END", "ELSE", "ELIF"] (msr st3 + 1) st3 [] with
        | .error e => .error e
        | .ok (body, st4) =>
          let afterElse : Except Err (List Node × PSt) :=
            match st4.current with
            | some t =>
                if t.ty = "ELSE" ∨ t.ty = "ELIF" then
                  let st5 := adv st4
                  match st5.current with
                  | none => .error (.crash "AttributeError")
                  | some t2 =>
                      if t2.ty = "COLON" then
                        let st6 := adv st5
                        match parseRestrictedBody ["EOF", "END"] (msr st6 + 1) st6 [] with
                        | .error e => .error e
                        | .ok (more, st7) => .ok (body ++ more, st7)
                      else .ok (body, st5)
                else .ok (body, st4)
            | none => .ok (body, st4)
          match afterElse with
          | .error e => .error e
          | .ok (allBody, st8) => .ok (.ifN cond allBody, consumeOptEnd st8)

/-- `Parser.parse_while`: the condition is parsed and discarded; the body is
wrapped in a `LoopNode`. -/
def parseWhile (st : PSt) : Except Err (Node × PSt) :=
  match expectT st "WHILE" with
  | .error e => .error e
  | .ok (_, st1) =>
    match parseExpression st1 with
    | .error e => .error e
    | .ok (_, st2) =>
      match expectT st2 "COLON" with
      | .error e => .error e
      | .ok (_, st3) =>
        match parseRestrictedBody ["EOF", "END"] (msr st3 + 1) st3 [] with
        | .error e => .error e
        | .ok (body, st4) => .ok (.loopN body, consumeOptEnd st4)

/-- `Parser.parse_for`: header pieces are parsed and discarded; the body is
wrapped in a `LoopNode`. -/
def parseFor (st : PSt) : Except Err (Node × PSt) :=
  match expectT st "FOR" with
  | .error e => .error e
  | .ok (_, st1) =>
    match expectT st1 "LPAREN" with
    | .error e => .error e
    | .ok (_, st2) =>
      let initR : Except Err PSt :=
        match st2.current with
        | none => .error (.crash "AttributeError")
        | some t =>
            if t.ty = "INT" then
              match parseVariableDeclaration st2 with
              | .error e => .error e
              | .ok (_, st3) => .ok st3
            else if t.ty = "ID" then
              match parseAssignment st2 with
              | .error e => .error e
              | .ok (_, st3) => .ok st3
            else .ok st2
      match initR with
      | .error e => .error e
      | .ok st3 =>
        match expectT st3 "SEMICOLON" with
        | .error e => .error e
        | .ok (_, st4) =>
          match parseExpression st4 with
          | .error e => .error e
          | .ok (_, st5) =>
            match expectT st5 "SEMICOLON" with
            | .error e => .error e
            | .ok (_, st6) =>
              let incR : Except Err PSt :=
                match st6.current with
                | none => .error (.crash "AttributeError")
                | some t =>
                    if t.ty = "ID" then
                      match parseAssignment st6 with
                      | .error e => .error e
                      | .ok (_, st7) => .ok st7
                    else .ok st6
              match incR with
              | .error e => .error e
              | .ok st7 =>
                match expectT st7 "RPAREN" with
                | .error e => .error e
                | .ok (_, st8) =>
                  match expectT st8 "COLON" with
                  | .error e => .error e
                  | .ok (_, st9) =>
                    match parseRestrictedBody ["EOF", "END"] (msr st9 + 1) st9 [] with
                    | .error e => .error e
                    | .ok (body, st10) => .ok (.loopN body, consumeOptEnd st10)

/-- The parameter loop of `Parser.parse_function_declaration`.  When the
current token is neither a parameter type nor `RPAREN`, the Python loop body
performs no advance, so the loop never terminates; here the state is passed
unchanged to the recursive call and every fuel budget is exhausted. -/
def parseFDParams : Nat → PSt → List (String × PyVal) →
    Except Err (List (String × PyVal) × PSt)
  | 0, _, _ => .error .fuel
  | fuel + 1, st, params =>
    match st.current with
    | none => .ok (params, st)
    | some t =>
      if t.ty = "RPAREN" then .ok (params, st)
      else if t.ty = "INT" ∨ t.ty = "FLOAT" ∨ t.ty = "BOOL" then
        let st1 := adv st
        match expectT st1 "ID" with
        | .error e => .error e
        | .ok (idt, st2) =>
          let st3 :=
            match st2.current with
            | some c => if c.ty = "COMMA" then adv st2 else st2
            | none => st2
          parseFDParams fuel st3 (params ++ [(t.ty, idt.val)])
      else parseFDParams fuel st params

/-- `Parser.parse_function_declaration`. -/
def parseFunctionDeclaration (st : PSt) : Except Err (Node × PSt) :=
  match expectT st "FUNCTION" with
  | .error e => .error e
  | .ok (_, st1) =>
    match expectT st1 "ID" with
    | .error e => .error e
    | .ok (nameT, st2) =>
      match expectT st2 "LPAREN" with
      | .error e => .error e
      | .ok (_, st3) =>
        match parseFDParams (msr st3 + 1) st3 [] with
        | .error e => .error e
        | .ok (params, st4) =>
          match expectT st4 "RPAREN" with
          | .error e => .error e
          | .ok (_, st5) =>
            match expectT st5 "COLON" with
            | .error e => .error e
            | .ok (_, st6) =>
              let st7 := { st6 with
                symbols := symSet st6.symbols nameT.val (.func params) }
              match parseRestrictedBody ["EOF", "END", "RETURN"] (msr st7 + 1) st7 [] with
              | .error e => .error e
              | .ok (body, st8) =>
                let retR : Except Err PSt :=
                  match st8.current with
                  | some t =>
                      if t.ty = "RETURN" then
                        let st9 := adv st8
                        match st9.current with
                        | none => .error (.crash "AttributeError")
                        | some t2 =>
                            if t2.ty = "INTEGER" ∨ t2.ty = "FLOAT" ∨ t2.ty = "ID" then
                              .ok (adv st9)
                            else .ok st9
                      else .ok st8
                  | none => .ok st8
                match retR with
                | .error e => .error e
                | .ok st10 =>
                    .ok (.funcCall nameT.val [] body, consumeOptEnd st10)

/-- The body loop of `Parser.parse_loop` (`loop: ... end`). -/
def parseLoopBody : Nat → PSt → List Node → Except Err (List Node × PSt)
  | 0, _, _ => .error .fuel
  | fuel + 1, st, acc =>
    match st.current with
    | none => .ok (acc, st)
    | some t =>
      if t.ty = "EOF" ∨ t.ty = "END" then .ok (acc, st)
      else if t.ty = "PIN" then
        match parsePinDeclaration st with
        | .error e => .error e
        | .ok (n, st2) => parseLoopBody fuel st2 (acc ++ [n])
      else if isCallTy t.ty then
        match parseFunctionCall st with
        | .error e => .error e
        | .ok (n, st2) => parseLoopBody fuel st2 (acc ++ [n])
      else if t.ty = "IF" then
        match parseIf st with
        | .error e => .error e
        | .ok (n, st2) => parseLoopBody fuel st2 (acc ++ [n])
      else if t.ty = "WHILE" then
        match parseWhile st with
        | .error e => .error e
        | .ok (n, st2) => parseLoopBody fuel st2 (acc ++ [n])
      else if t.ty = "FOR" then
        match parseFor st with
        | .error e => .error e
        | .ok (n, st2) => parseLoopBody fuel st2 (acc ++ [n])
      else parseLoopBody fuel (adv st) acc

/-- `Parser.parse_loop`. -/
def parseLoop (st : PSt) : Except Err (Node × PSt) :=
  match expectT st "LOOP" with
  | .error e => .error e
  | .ok (_, st1) =>
    match expectT st1 "COLON" with
    | .error e => .error e
    | .ok (_, st2) =>
      match parseLoopBody (msr st2 + 1) st2 [] with
      | .error e => .error e
      | .ok (children, st3) => .ok (.loopN children, consumeOptEnd st3)

/-- The top-level dispatch loop of `Parser.parse`. -/
def parseTop : Nat → PSt → List Node → Except Err (List Node × PSt)
  | 0, _, _ => .error .fuel
  | fuel + 1, st, acc =>
    match st.current with
    | none => .ok (acc, st)
    | some t =>
      if t.ty = "EOF" then .ok (acc, st)
      else if t.ty = "PIN" then
        match parsePinDeclaration st with
        | .error e => .error e
        | .ok (n, st2) => parseTop fuel st2 (acc ++ [n])
      else if t.ty = "FUNCTION" then
        match parseFunctionDeclaration st with
        | .error e => .error e
        | .ok (n, st2) => parseTop fuel st2 (acc ++ [n])
      else if t.ty = "LOOP" then
        match parseLoop st with
        | .error e => .error e
        | .ok (n, st2) => parseTop fuel st2 (acc ++ [n])
      else if t.ty = "SERIAL_BEGIN" then
        match parseSerialBegin st with
        | .error e => .error e
        | .ok (n, st2) => parseTop fuel st2 (acc ++ [n])
      else if t.ty = "INT" ∨ t.ty = "FLOAT" ∨ t.ty = "BOOL" ∨ t.ty = "CHAR" ∨
              t.ty = "STRING" then
        match parseVariableDeclaration st with
        | .error e => .error e
        | .ok (n, st2) => parseTop fuel st2 (acc ++ [n])
      else if t.ty = "ID" ∧ peekIsAssign st = true then
        match parseAssignment st with
        | .error e => .error e
        | .ok (n, st2) => parseTop fuel st2 (acc ++ [n])
      else if isCallTy t.ty then
        match parseFunctionCall st with
        | .error e => .error e
        | .ok (n, st2) => parseTop fuel st2 (acc ++ [n])
      else parseTop fuel (adv st) acc

/-- `Parser.__init__`: cursor at 0, then one `advance`. -/
def initPSt (toks : List Tok) : PSt :=
  adv { tokens := toks, pos := 0, current := none, symbols := [] }

/-- `Parser.parse`: run the top-level loop from the initial state, with fuel
ample for its strictly decreasing measure. -/
def parseProgram (toks : List Tok) : Except Err (List Node × PSt) :=
  parseTop (msr (initPSt toks) + 1) (initPSt toks) []

/-! ## Code generator (`codegen.py`) -/

/-- Generator state (`CodeGenerator.__init__`): the output line buffer, the
indent level, the recorded variables, the setup flag (written but never
read), and the include set. -/
structure GenSt where
  output : List String
  indent : Nat
  vars : List (PyVal × (String × Option PyVal))
  inSetup : Bool
  includes : List String
deriving Repr

/-- The initial generator state. -/
def initGenSt : GenSt :=
  { output := [], indent := 0, vars := [], inSetup := true,
    includes := ["<Arduino.h>"] }

/-- Python `'  ' * indent_level`: two spaces per level. -/
def indentStr (n : Nat) : String := String.mk (List.replicate (2 * n) ' ')

/-- Add a header to the include set (`set.add`). -/
def includesAdd (l : List String) (s : String) : List String :=
  if s ∈ l then l else l ++ [s]

/-- Insert into an ascending list (helper for `sortStrings`). -/
def insertAsc (s : String) : List String → List String
  | [] => [s]
  | t :: rest => if s < t then s :: t :: rest else t :: insertAsc s rest

/-- Sort strings lexicographically ascending (Python `sorted`). -/
def sortStrings : List String → List String
  | [] => []
  | s :: rest => insertAsc s (sortStrings rest)

/-- Python `str.startswith` (character-list based). -/
def strStarts (s pre : String) : Bool := pre.data.isPrefixOf s.data

/-- Python `str.endswith` (character-list based). -/
def strEnds (s suf : String) : Bool := suf.data.reverse.isPrefixOf s.data.reverse

/-- Python slicing `s[n:]` (character-list based). -/
def strDrop (s : String) (n : Nat) : String := String.mk (s.data.drop n)

/-- Drop the last `n` characters (character-list based). -/
def strDropRight (s : String) (n : Nat) : String :=
  String.mk (s.data.take (s.data.length - n))

/-- `CodeGenerator.normalize_pin`: resolve aliases, strip a `D` prefix,
upper-case an `A`-prefixed pin.  When an alias resolves to an `int`, the
subsequent `pin.startswith('D')` raises `AttributeError`. -/
def normalizePin : PyVal → Except String String
  | .vStr s =>
      (match (aliasLookup s).getD (.vStr s) with
       | .vStr s2 =>
           if strStarts s2 "D" then .ok (strDrop s2 1)
           else if strStarts (pyUpper s2) "A" then .ok (pyUpper s2)
           else .ok s2
       | .vInt _ => .error "AttributeError"
       | .vFloat _ => .error "AttributeError")
  | .vInt n => .ok (pyStr (.vInt n))
  | .vFloat f => .ok (pyStr (.vFloat f))

/-- `CodeGenerator.normalize_value`: logic levels to boolean/`HIGH`/`LOW`
constants depending on the variable-type context, alias resolution, and
quoting for string-typed values. -/
def normalizeValue : PyVal → Option String → Except String String
  | .vStr s, varTy =>
      if pyLower s = "истина" ∨ pyLower s = "true" ∨ pyLower s = "высоко" ∨
         pyLower s = "включено" then
        .ok (if varTy = some "pin" then "HIGH" else "true")
      else if pyLower s = "ложь" ∨ pyLower s = "false" ∨ pyLower s = "низко" ∨
              pyLower s = "выключено" then
        .ok (if varTy = some "pin" then "LOW" else "false")
      else
        (match aliasLookup s with
         | some a => normalizePin a
         | none =>
             if varTy = some "STRING" ∧ ¬ (strStarts s "\"" ∧ strEnds s "\"") then
               .ok ("\"" ++ s ++ "\"")
             else .ok s)
  | v, _ => .ok (pyStr v)

/-- `CodeGenerator.map_type`: language type kinds to target primitive type
names, defaulting to `int`. -/
def mapType (tyName : String) : String :=
  if tyName = "INT" then "int"
  else if tyName = "FLOAT" then "float"
  else if tyName = "BOOL" then "bool"
  else if tyName = "CHAR" then "char"
  else if tyName = "STRING" then "String"
  else if tyName = "VOID" then "void"
  else if tyName = "LONG" then "long"
  else if tyName = "BYTE" then "byte"
  else if tyName = "WORD" then "word"
  else "int"

/-- The `mode_map` of `CodeGenerator.generate_pin_declaration`, with its
`.get(₄, 'OUTPUT')` default; a non-string mode also takes the default. -/
def pinModeOf (mode : PyVal) : String :=
  match mode with
  | .vStr m =>
      if m = "выход" then "OUTPUT"
      else if m = "вход" then "INPUT"
      else if m = "вход_подтяжка" then "INPUT_PULLUP"
      else if m = "аналог" then "INPUT"
      else if m = "шим" then "OUTPUT"
      else "OUTPUT"
  | _ => "OUTPUT"

/-- The `value_map` of `CodeGenerator.generate_pin_declaration`, keyed by
`str(value).lower()`, defaulting to `str(value)` itself. -/
def pinInitValStr (v : PyVal) : String :=
  let key := pyLower (pyStr v)
  if key = "высоко" then "HIGH"
  else if key = "низко" then "LOW"
  else if key = "включено" then "HIGH"
  else if key = "выключено" then "LOW"
  else pyStr v

/-- `CodeGenerator.generate_expression`: the body compares against the name
`BinaryOpNode`, which `codegen.py` never imports, so every call raises
`NameError` before anything else happens. -/
def genExpression (_ : CondV) : Except String String :=
  .error "NameError"

/-- Python `str.isdigit` on the (ASCII) strings the generator produces. -/
def strIsDigit (s : String) : Bool :=
  s ≠ "" ∧ s.data.all isPyDigit

/-- Append lines to the generator output. -/
def emit (st : GenSt) (ls : List String) : GenSt :=
  { st with output := st.output ++ ls }

/-- `CodeGenerator.generate_pin_declaration`. -/
def genPinDecl (st : GenSt) (pin mode : PyVal) (value : Option PyVal) :
    Except String GenSt :=
  match normalizePin pin with
  | .error e => .error e
  | .ok p =>
    let m := pinModeOf mode
    let ind := indentStr st.indent
    let st1 := emit st [s!"{ind}pinMode({p}, {m});"]
    match value with
    | none => .ok st1
    | some v =>
        let vs := pinInitValStr v
        if m = "OUTPUT" then .ok (emit st1 [s!"{ind}digitalWrite({p}, {vs});"])
        else .ok st1

/-- Python dict update for `CodeGenerator.variables`. -/
def varSet : List (PyVal × (String × Option PyVal)) → PyVal →
    (String × Option PyVal) → List (PyVal × (String × Option PyVal))
  | [], k, v => [(k, v)]
  | (k0, v0) :: rest, k, v =>
      if k0 = k then (k, v) :: rest else (k0, v0) :: varSet rest k v

/-- Fold a per-node generator over a child list, stopping at the first
raised exception (`CodeGenerator.generate_loop_content` and the child loops
of `generate_setup` / `generate_if`). -/
def genList (g : GenSt → Node → Except String GenSt) :
    GenSt → List Node → Except String GenSt
  | st, [] => .ok st
  | st, n :: rest =>
      match g st n with
      | .error e => .error e
      | .ok st2 => genList g st2 rest

/-- The analog-pin spelling of `generate_node`'s AnalogRead case: prefix
`A` onto a bare digit string. -/
def analogPinName (p : String) : String :=
  if ¬ strStarts p "A" then (if strIsDigit p then "A" ++ p else p) else p

/-- `CodeGenerator.generate_node` together with all per-kind generators.
Recursion into child lists is paid for by `fuel`, one unit per tree level,
mirroring the interpreter's recursion limit; the wrapper `genNode` passes
`recLimit`, which covers every parser-produced tree. -/
def genNodeF : Nat → GenSt → Node → Except String GenSt
  | 0, _, _ => .error "RecursionError"
  | fuel + 1, st, n =>
  match n with
  | .program _ => .ok st
  | .pinDecl pin mode value => genPinDecl st pin mode value
  | .digitalWrite pin value =>
      match normalizePin pin with
      | .error e => .error e
      | .ok p =>
        match normalizeValue value none with
        | .error e => .error e
        | .ok v =>
          .ok (emit st [s!"{indentStr st.indent}digitalWrite({p}, {v});"])
  | .analogWrite pin value =>
      match normalizePin pin with
      | .error e => .error e
      | .ok p =>
        .ok (emit st [s!"{indentStr st.indent}analogWrite({p}, {pyStr value});"])
  | .digitalRead pin =>
      match normalizePin pin with
      | .error e => .error e
      | .ok p => .ok (emit st [s!"{indentStr st.indent}digitalRead({p});"])
  | .analogRead pin =>
      match normalizePin pin with
      | .error e => .error e
      | .ok p => .ok (emit st [s!"{indentStr st.indent}analogRead({analogPinName p});"])
  | .delayN d =>
      .ok (emit st [s!"{indentStr st.indent}delay({pyStr d});"])
  | .serialBegin baud =>
      let st1 := emit st [s!"{indentStr st.indent}Serial.begin({pyStr baud});"]
      .ok { st1 with includes := includesAdd st1.includes "<SoftwareSerial.h>" }
  | .serialPrint v nl =>
      if nl then .ok (emit st [s!"{indentStr st.indent}Serial.println({pyStr v});"])
      else .ok (emit st [s!"{indentStr st.indent}Serial.print({pyStr v});"])
  | .loopN children => genList (genNodeF fuel) st children
  | .ifN cond children =>
      match genExpression cond with
      | .error e => .error e
      | .ok c =>
        let ind := indentStr st.indent
        let st1 := { emit st [s!"{ind}if ({c}) \x7b"] with indent := st.indent + 1 }
        match genList (genNodeF fuel) st1 children with
        | .error e => .error e
        | .ok st2 =>
          let st3 := { st2 with indent := st2.indent - 1 }
          .ok (emit st3 [s!"{ind}\x7d"])
  | .varDecl name vty value =>
      let cty := mapType vty
      let r : Except String GenSt :=
        match value with
        | some v =>
            match normalizeValue v (some vty) with
            | .error e => .error e
            | .ok vs =>
              .ok (emit st [s!"{indentStr st.indent}{cty} {pyStr name} = {vs};"])
        | none => .ok (emit st [s!"{indentStr st.indent}{cty} {pyStr name};"])
      match r with
      | .error e => .error e
      | .ok st1 =>
          .ok { st1 with vars := varSet st1.vars name (vty, value) }
  | .assign name value =>
      match normalizeValue value none with
      | .error e => .error e
      | .ok vs =>
        .ok (emit st [s!"{indentStr st.indent}{pyStr name} = {vs};"])
  | .funcCall name args _ =>
      let argStr := String.intercalate ", " (args.map pyStr)
      .ok (emit st [s!"{indentStr st.indent}{pyStr name}({argStr});"])
  | .binOp _ _ right =>
      match normalizeValue right none with
      | .error e => .error e
      | .ok _ => .ok st

/-- One recursion-budget unit per AST level, standing in for CPython's
default recursion limit: `generate_node` recursing into a tree deeper than
the interpreter's limit would raise `RecursionError`, and no parser-produced
tree is deeper than three levels. -/
def recLimit : Nat := 1000

/-- `CodeGenerator.generate_node` with the interpreter's recursion budget. -/
def genNode (st : GenSt) (n : Node) : Except String GenSt :=
  genNodeF recLimit st n

/-- Generate a list of child nodes in order. -/
def genNodes (st : GenSt) (ns : List Node) : Except String GenSt :=
  genList genNode st ns

/-- One global-variable declaration line of `CodeGenerator.generate_header`
(unreachable in the assembled pipeline because the header is emitted before
any variable is recorded, but embedded for fidelity). -/
def headerVarLine (name : PyVal) (info : String × Option PyVal) : List String :=
  if info.1 = "pin" then []
  else
    let cty := mapType info.1
    match info.2 with
    | some v =>
        if info.1 = "STRING" then [s!"{cty} {pyStr name} = \"{pyStr v}\";"]
        else if info.1 = "BOOL" then
          let bv := if pyTruthy v then "true" else "false"
          [s!"{cty} {pyStr name} = {bv};"]
        else [s!"{cty} {pyStr name} = {pyStr v};"]
    | none => [s!"{cty} {pyStr name};"]

/-- `CodeGenerator.generate_header`: comment lines, sorted includes, then
the recorded global variables (skipping pins). -/
def generateHeader (st : GenSt) : GenSt :=
  let st1 := emit st ["// Сгенерировано ArduinoScript", "// Автоматически созданный код", ""]
  let st2 := emit st1 ((sortStrings st1.includes).map (fun i => s!"#include {i}"))
  let st3 := emit st2 [""]
  if st3.vars = [] then st3
  else
    let st4 := emit st3 ["// Глобальные переменные"]
    let st5 := emit st4 (st4.vars.foldl (fun acc p => acc ++ headerVarLine p.1 p.2) [])
    emit st5 [""]

/-- `CodeGenerator.generate_setup`: traverse all Program children at one
indent level inside `void setup()`. -/
def generateSetup (st : GenSt) (children : List Node) : Except String GenSt :=
  let st1 := { emit st ["void setup() \x7b"] with indent := st.indent + 1 }
  match genNodes st1 children with
  | .error e => .error e
  | .ok st2 =>
    let st3 := { st2 with indent := st2.indent - 1 }
    .ok { emit st3 ["\x7d", ""] with inSetup := false }

/-- Class-name test for `LoopNode` (`node.__class__.__name__ ==
'LoopNode'`). -/
def isLoopN : Node → Bool
  | .loopN _ => true
  | _ => false

/-- `CodeGenerator.generate_loop`: translate only the first `LoopNode` among
the Program children inside `void loop()`. -/
def generateLoopPhase (st : GenSt) (children : List Node) : Except String GenSt :=
  let st1 := { emit st ["void loop() \x7b"] with indent := st.indent + 1 }
  let body : Except String GenSt :=
    match children.find? isLoopN with
    | some n => genNode st1 n
    | none => .ok st1
  match body with
  | .error e => .error e
  | .ok st2 =>
    let st3 := { st2 with indent := st2.indent - 1 }
    .ok (emit st3 ["\x7d"])

/-- `CodeGenerator.generate` producing the output line list (the Python
buffer before `'\n'.join`). -/
def generateLines (children : List Node) : Except String (List String) :=
  let st1 := generateHeader initGenSt
  match generateSetup st1 children with
  | .error e => .error e
  | .ok st2 =>
    match generateLoopPhase st2 children with
    | .error e => .error e
    | .ok st3 => .ok st3.output

/-- `CodeGenerator.generate`: the joined target source text. -/
def generate (children : List Node) : Except String String :=
  (generateLines children).map (String.intercalate "\n")

/-! ## Compiler facade (`compiler.py`) -/

/-- `ArduinoScriptCompiler.compile` as the output line list. -/
def compileLines (src : String) : Except Err (List String) :=
  match parseProgram (tokenize src) with
  | .error e => .error e
  | .ok (children, _) =>
    match generateLines children with
    | .error name => .error (.crash name)
    | .ok ls => .ok ls

/-- `ArduinoScriptCompiler.compile`: program text to target source text. -/
def compile (src : String) : Except Err String :=
  (compileLines src).map (String.intercalate "\n")

/-- Instance state of `ArduinoScriptCompiler` (the fields `compile` touches:
it assigns `self.ast` after a successful parse and `self.cpp_code` after a
successful generation, and reads neither). -/
structure CompilerInst where
  sourcePath : Option String
  sourceCode : String
  astO : Option (List Node)
  cppCode : String

/-- A fresh compiler instance (`ArduinoScriptCompiler()`). -/
def newCompiler : CompilerInst :=
  { sourcePath := none, sourceCode := "", astO := none, cppCode := "" }

/-- `ArduinoScriptCompiler.compile` as a method: result together with the
updated instance state.  An exception escaping a stage leaves the fields the
stage had not yet assigned untouched. -/
def compileMethod (c : CompilerInst) (src : String) :
    Except Err String × CompilerInst :=
  match parseProgram (tokenize src) with
  | .error e => (.error e, c)
  | .ok (children, _) =>
    let c1 := { c with astO := some children }
    match generate children with
    | .error name => (.error (.crash name), c1)
    | .ok code => (.ok code, { c1 with cppCode := code })

/-- An abstract file system: path to file content, first binding wins. -/
def FS : Type := List (String × String)

/-- Read a file; `none` is a failed `open` (`FileNotFoundError`). -/
def fsRead (fs : FS) (path : String) : Option String :=
  ((fs : List (String × String)).find? (fun p => p.1 = path)).map (fun p => p.2)

/-- Write a file, replacing existing content. -/
def fsWrite (fs : FS) (path content : String) : FS :=
  let rec go : List (String × String) → List (String × String)
    | [] => [(path, content)]
    | (k, v) :: rest => if k = path then (path, content) :: rest else (k, v) :: go rest
  go fs

/-- The name component of a path (after the last slash). -/
def pathName (p : String) : String :=
  String.mk (p.data.reverse.takeWhile (fun c => c ≠ '/')).reverse

/-- The rightmost index of `'.'` in a character list. -/
def lastDotIdx (cs : List Char) : Option Nat :=
  match cs with
  | [] => none
  | c :: rest =>
      match lastDotIdx rest with
      | some k => some (k + 1)
      | none => if c = '.' then some 0 else none

/-- `pathlib.PurePath.suffix` of a name: text from the last dot, provided
that dot is neither the first nor the last character. -/
def pySuffix (name : String) : String :=
  match lastDotIdx name.data with
  | some i => if 0 < i ∧ i + 1 < name.length then strDrop name i else ""
  | none => ""

/-- `Path(inputPath).with_suffix('.ino')`: drop the existing suffix of the
final path component and append `.ino` (modelled for ordinary paths without
a trailing slash). -/
def withSuffixIno (p : String) : String :=
  strDropRight p (pySuffix (pathName p)).length ++ ".ino"

/-- `ArduinoScriptCompiler.compile_file` over the abstract file system:
read the input, compute the output path (defaulting to the input path with
its extension replaced by `.ino`), compile, and only on success write the
output; every caught exception yields `false` with the file system
untouched. -/
def compileFile (fs : FS) (inputPath : String) (outputPath : Option String) :
    Bool × FS :=
  match fsRead fs inputPath with
  | none => (false, fs)
  | some src =>
    let outPath :=
      match outputPath with
      | none => withSuffixIno inputPath
      | some p => p
    match compile src with
    | .error _ => (false, fs)
    | .ok code => (true, fsWrite fs outPath code)

/-! ## Observation functions and invariants used by the claims -/

/-- Lines of a braced routine: everything after the given opening line up to
the first closing brace at column zero. -/
def sectionAfter (hdr : String) (ls : List String) : List String :=
  ((ls.dropWhile (fun l => l ≠ hdr)).drop 1).takeWhile (fun l => l ≠ "\x7d")

/-- Body of the generated initialization routine. -/
def setupSection (ls : List String) : List String :=
  sectionAfter "void setup() \x7b" ls

/-- Body of the generated repeating-execution routine. -/
def loopSection (ls : List String) : List String :=
  sectionAfter "void loop() \x7b" ls

/-- The Program children parsed from a source text (empty on parse error). -/
def parsedChildren (src : String) : List Node :=
  match parseProgram (tokenize src) with
  | .ok (children, _) => children
  | .error _ => []

/-- A line that is an include directive. -/
def isIncludeLine (l : String) : Bool :=
  l.data.take 8 = "#include".data

/-- A line that does not begin with `#` (hence is not an include
directive). -/
def noHash (l : String) : Bool :=
  l.data.head? ≠ some '#'

/-- Sublist containment of character lists (Python `in` on strings). -/
def listInfix (p : List Char) : List Char → Bool
  | [] => decide (p = [])
  | c :: rest => p.isPrefixOf (c :: rest) || listInfix p rest

/-- A line mentioning a write call. -/
def mentionsWrite (l : String) : Bool :=
  listInfix "digitalWrite(".data l.data || listInfix "analogWrite(".data l.data

/-- A line mentioning a pin-mode-configuration call. -/
def mentionsPinMode (l : String) : Bool :=
  listInfix "pinMode(".data l.data

/-- A pin value whose normalization does not crash: every pin except a
symbolic alias that resolves to a numeric pin. -/
def pinOK : PyVal → Bool
  | .vStr s =>
      (match aliasLookup s with
       | some (.vStr _) => true
       | some _ => false
       | none => true)
  | _ => true

/-- Fuel-indexed safety: nodes on which generation cannot crash, because all
pins normalize and no `If` node occurs (an `If` node always raises
`NameError` in `generate_expression`); the fuel mirrors `genNodeF`. -/
def nodeSafeF : Nat → Node → Bool
  | 0, _ => false
  | fuel + 1, n =>
  match n with
  | .program _ => true
  | .pinDecl p _ _ => pinOK p
  | .digitalWrite p _ => pinOK p
  | .digitalRead p => pinOK p
  | .analogWrite p _ => pinOK p
  | .analogRead p => pinOK p
  | .delayN _ => true
  | .serialBegin _ => true
  | .serialPrint _ _ => true
  | .loopN cs => cs.all (nodeSafeF fuel)
  | .ifN _ _ => false
  | .varDecl _ _ _ => true
  | .assign _ _ => true
  | .funcCall _ _ _ => true
  | .binOp _ _ _ => true

/-- Safety of one node, with the same fuel `genNode` uses. -/
def nodeSafe (n : Node) : Bool := nodeSafeF recLimit n

/-- `nodeSafe` over a child list. -/
def nodesSafe (ns : List Node) : Bool := ns.all nodeSafe

/-- The translation of the body of the first Loop node of a program, from a
fresh output buffer at the repeating routine's indent level; the empty line
list when there is no Loop node. -/
def loopCleanSt : GenSt :=
  { output := [], indent := 1, vars := [], inSetup := false,
    includes := ["<Arduino.h>"] }

def loopBodyTranslation (children : List Node) : Except String (List String) :=
  match children.find? isLoopN with
  | none => .ok []
  | some n => (genNode loopCleanSt n).map GenSt.output

/-- Parser-state well-formedness: the current token, when loaded, is the
token just before the cursor; when it is `None` the cursor is at the end. -/
def wfP (st : PSt) : Prop :=
  match st.current with
  | some t => 1 ≤ st.pos ∧ st.tokens.get? (st.pos - 1) = some t
  | none => st.pos = st.tokens.length

/-- What one parsing step (or a whole sub-parse) preserves: the token list
is untouched, the cursor never moves backwards, the loop measure does not
grow, and well-formedness is preserved. -/
def stepOK (st st2 : PSt) : Prop :=
  st2.tokens = st.tokens ∧ st.pos ≤ st2.pos ∧ msr st2 ≤ msr st ∧ (wfP st → wfP st2)

/-- A sub-parse that moreover strictly decreases the loop measure. -/
def stepLT (st st2 : PSt) : Prop :=
  stepOK st st2 ∧ msr st2 < msr st

/-- The parser state at which the parameter loop of
`parse_function_declaration` sticks for the input `функция ф(5)`: the
current token `5` is neither a parameter type nor `RPAREN`, and the loop
body performs no advance. -/
def stuckSt : PSt :=
  { tokens := tokenize "функция ф(5)", pos := 4,
    current := some ⟨"INTEGER", .vInt 5, 1, 11⟩, symbols := [] }

/-- The target pin-mode constant an output-mode declaration maps to. -/
def outMode : String := pinModeOf (.vStr "выход")

/-- The first test program of the specification (blink). -/
def blinkSrc : String :=
  "пин 13 = выход\nцикл:\n  цифрзапись(13, высоко)\n  ждать(1000)\n  цифрзапись(13, низко)\n  ждать(500)\nконец"

/-- The generated output lines of a source text (empty on failure). -/
def outLines (src : String) : List String :=
  match compileLines src with
  | .ok ls => ls
  | .error _ => []

/-- Whether parsing a source text succeeds. -/
def parseOk (src : String) : Bool :=
  match parseProgram (tokenize src) with
  | .ok _ => true
  | .error _ => false

/-- The error, if any, that parsing a source text raises. -/
def parseErrOf (src : String) : Option Err :=
  match parseProgram (tokenize src) with
  | .error e => some e
  | .ok _ => none

/-- Whether the whole compilation of a source text succeeds. -/
def compileOk (src : String) : Bool :=
  match compileLines src with
  | .ok _ => true
  | .error _ => false

/-- A pin declaration through a symbolic alias that maps to a numeric pin. -/
def aliasSrc : String := "пин светодиод = выход"

/-- A loop containing a conditional whose condition is a binary
comparison. -/
def ifLoopSrc : String := "цикл:\nесли 1 равно 2:\nцифрзапись(13, высоко)\nконец\nконец"

/-- A program performing serial initialization. -/
def serialSrc : String := "начать_последовательный(9600)"

/-- A pin declaration whose mode token is missing (the token after
`пин 13 =` is an integer, not a pin-mode keyword). -/
def pinErrSrc : String := "пин 13 = 5"

/-- A function declaration whose parameter list contains a token that is
neither a parameter type nor a closing parenthesis. -/
def funcDivSrc : String := "функция ф(5)"

/-- Decidable equality for `Except` results (both components decidable). -/
instance instDecEqExcept {ε α : Type} [DecidableEq ε] [DecidableEq α] :
    DecidableEq (Except ε α) := fun a b =>
  match a, b with
  | .error e1, .error e2 =>
      if h : e1 = e2 then .isTrue (by rw [h]) else .isFalse (by intro hc; cases hc; exact h rfl)
  | .ok v1, .ok v2 =>
      if h : v1 = v2 then .isTrue (by rw [h]) else .isFalse (by intro hc; cases hc; exact h rfl)
  | .error _, .ok _ => .isFalse (by intro hc; cases hc)
  | .ok _, .error _ => .isFalse (by intro hc; cases hc)

/-! ## Theorems -/

set_option maxHeartbeats 16000000 in
/-- Claim C2 (confirmed): compiling the blink program produces, in order
within the repeating routine, a write call setting pin 13 high, a 1000-unit
delay, a write call setting pin 13 low, and a 500-unit delay (the logic
levels are rendered as the boolean constants `true`/`false`, the target's
encodings of high/low outside an explicit pin context), and within the
initialization routine a pin-mode-configuration call for pin 13 as
output. -/
theorem blink_program_sections :
    loopSection (outLines blinkSrc) =
      ["  digitalWrite(13, true);", "  delay(1000);",
       "  digitalWrite(13, false);", "  delay(500);"] ∧
    "  pinMode(13, OUTPUT);" ∈ setupSection (outLines blinkSrc) ∧
    compileOk blinkSrc = true := by decide

set_option maxHeartbeats 4000000 in
/-- Claim C7, counterexample: the scanner is not longest-match-first.  On
`==` it produces two assignment tokens rather than one equality token, on
`<=` a less-than then an assignment token rather than one less-or-equal
token, and on `0x1F` an integer `0` and an identifier `x1F` rather than one
hexadecimal literal. -/
theorem lexer_not_longest_match :
    (tokenize "==").map Tok.ty = ["ASSIGN", "ASSIGN", "EOF"] ∧
    (tokenize "<=").map Tok.ty = ["LT", "ASSIGN", "EOF"] ∧
    (tokenize "0x1F").map (fun t => (t.ty, t.val)) =
      [("INTEGER", .vInt 0), ("ID", .vStr "x1F"), ("EOF", .vStr "")] := by decide

set_option maxHeartbeats 4000000 in
/-- Claim C7, amended: `tokenize` classifies by first-match in declaration
order of the fixed pattern list (each pattern greedy by itself), so every
two-character operator whose first character is itself a listed pattern is
split (`==`, `<=`, `>=`, `**`, `->`), a hexadecimal literal is split after
its leading digits, while `!=` is recognized whole because `!` is listed
after it; the first matching classification at each position determines the
token. -/
theorem lexer_first_match_examples :
    (tokenize "==").map Tok.ty = ["ASSIGN", "ASSIGN", "EOF"] ∧
    (tokenize "<=").map Tok.ty = ["LT", "ASSIGN", "EOF"] ∧
    (tokenize ">=").map Tok.ty = ["GT", "ASSIGN", "EOF"] ∧
    (tokenize "**").map Tok.ty = ["MULTIPLY", "MULTIPLY", "EOF"] ∧
    (tokenize "->").map Tok.ty = ["MINUS", "GT", "EOF"] ∧
    (tokenize "!=").map Tok.ty = ["NEQ", "EOF"] ∧
    (tokenize "0x1F").map (fun t => (t.ty, t.val)) =
      [("INTEGER", .vInt 0), ("ID", .vStr "x1F"), ("EOF", .vStr "")] ∧
    (tokenize "1.50").map (fun t => (t.ty, t.val)) =
      [("FLOAT", .vFloat "1.50"), ("EOF", .vStr "")] := by decide

set_option maxHeartbeats 4000000 in
/-- Claim C5, counterexample: for the input `пин 13 = 5`, whose mode token
is missing, compilation does raise a syntax error, but its message is the
fixed string of `parse_pin_declaration` and contains no digit at all, hence
not the offending token's line `1` and column `10`. -/
theorem pin_mode_error_has_no_position :
    compile pinErrSrc = .error (.syn pinModeErrMsg) ∧
    pinModeErrMsg.data.all (fun c => !(isPyDigit c)) = true := by decide

set_option maxHeartbeats 8000000 in
/-- Claim C1, counterexample: two ASTs the parser produces on which
generation fails, neither failure being the unmapped-type fallback: a pin
declaration through the alias `светодиод` (which maps to the numeric pin 13,
so `normalize_pin` calls `startswith` on an `int` and raises
`AttributeError`), and a loop containing an `If` whose condition is the
binary comparison `1 равно 2` (`generate_expression` references the
undefined name `BinaryOpNode` and raises `NameError`). -/
theorem generation_crashes_on_parser_output :
    parseOk aliasSrc = true ∧
    generate (parsedChildren aliasSrc) = .error "AttributeError" ∧
    parseOk ifLoopSrc = true ∧
    generate (parsedChildren ifLoopSrc) = .error "NameError" := by decide

set_option maxHeartbeats 16000000 in
/-- Claim C3, counterexample: the blink program declares exactly one pin, in
output mode, with no initial value, and contains nothing else but a loop
block — yet its generated initialization block contains two write calls,
because phase 1 traverses all Program children including the Loop node and
so emits the loop body into `setup()` as well. -/
theorem setup_contains_loop_writes :
    parsedChildren blinkSrc =
      [.pinDecl (.vInt 13) (.vStr "выход") none,
       .loopN [.digitalWrite (.vInt 13) (.vStr "ВЫСОКО"), .delayN (.vInt 1000),
               .digitalWrite (.vInt 13) (.vStr "НИЗКО"), .delayN (.vInt 500)]] ∧
    (setupSection (outLines blinkSrc)).filter mentionsWrite =
      ["  digitalWrite(13, true);", "  digitalWrite(13, false);"] := by
  exact ⟨rfl, by decide⟩

set_option maxHeartbeats 8000000 in
/-- Claim C6, counterexample: a program performing serial initialization
whose generated output contains the serial-begin call but no
serial-communication header include: the include directives are emitted
before the traversal that records the header. -/
theorem serial_include_missing :
    compileLines serialSrc =
      .ok ["// Сгенерировано ArduinoScript", "// Автоматически созданный код", "",
           "#include <Arduino.h>", "",
           "void setup() \x7b", "  Serial.begin(9600);", "\x7d", "",
           "void loop() \x7b", "\x7d"] ∧
    "#include <SoftwareSerial.h>" ∉ outLines serialSrc ∧
    "  Serial.begin(9600);" ∈ outLines serialSrc := by decide

set_option maxHeartbeats 4000000 in
/-- Claim C9, counterexample: on the input `функция ф(5)` the parser does
not terminate: the parameter loop of `parse_function_declaration` never
advances past the token `5`, so the embedded loop exhausts its fuel (see
`fdparams_diverges` for the proof that every fuel amount is exhausted from
the stuck state). -/
theorem parser_diverges_on_bad_params :
    parseErrOf funcDivSrc = some .fuel := by decide

/-- Claim C10 (confirmed): `compile` is deterministic and depends only on
the program text: it reads no instance state (each compilation constructs
its own lexer, parser and generator), so two invocations — on different
instances or repeated on one instance — produce identical results. -/
theorem compile_deterministic :
    ∀ (c1 c2 : CompilerInst) (src : String),
      (compileMethod c1 src).1 = (compileMethod c2 src).1 ∧
      (compileMethod ((compileMethod c1 src).2) src).1 =
        (compileMethod c1 src).1 := by
  intro c1 c2 src
  unfold compileMethod
  cases h : parseProgram (tokenize src) with
  | error e => simp
  | ok pr =>
    cases hg : generate pr.1 with
    | error n => simp [hg]
    | ok code => simp [hg]

/-- Claim C8 (confirmed): `compileFile` returns a boolean and never
propagates a caught error; on any failure (unreadable input or a compile
error) it writes nothing, leaving the file system — in particular any
pre-existing output file — unchanged; on success it writes the generated
text to the explicit output path or, by default, to the input path with its
extension replaced by `.ino`. -/
theorem compileFile_failure_writes_nothing :
    ∀ (fs : FS) (input : String) (outp : Option String),
      ((compileFile fs input outp).1 = false → (compileFile fs input outp).2 = fs) ∧
      ((compileFile fs input outp).1 = true →
        ∃ src code, fsRead fs input = some src ∧ compile src = .ok code ∧
          (compileFile fs input outp).2 =
            fsWrite fs (outp.getD (withSuffixIno input)) code) := by
  intro fs input outp
  unfold compileFile
  cases h : fsRead fs input with
  | none => simp
  | some src =>
    cases hc : compile src with
    | error e => simp [hc]
    | ok code =>
      cases outp with
      | none =>
        refine ⟨fun hf => ?_, fun _ => ⟨src, code, rfl, hc, ?_⟩⟩
        · simp [hc] at hf
        · simp [hc, Option.getD]
      | some p =>
        refine ⟨fun hf => ?_, fun _ => ⟨src, code, rfl, hc, ?_⟩⟩
        · simp [hc] at hf
        · simp [hc, Option.getD]

set_option maxHeartbeats 4000000 in
/-- Witness for `compileFile_failure_writes_nothing`: on a file system
holding an empty program, compilation succeeds and the output is written to
the default path with the extension replaced. -/
theorem compileFile_witness :
    ∃ src code, fsRead [("a.arduino", "")] "a.arduino" = some src ∧
      compile src = .ok code ∧
      (compileFile [("a.arduino", "")] "a.arduino" none).2 =
        fsWrite [("a.arduino", "")] ((none : Option String).getD (withSuffixIno "a.arduino")) code :=
  (compileFile_failure_writes_nothing [("a.arduino", "")] "a.arduino" none).2 (by decide)

/-! ### Totality of generation on safe nodes (claim C1) -/

/-- A boolean-`isOk` form of success. -/
theorem exists_ok_of_isOk {ε α : Type} {e : Except ε α} (h : e.isOk = true) :
    ∃ x, e = .ok x := by
  cases e with
  | error _ => simp [Except.isOk, Except.toBool] at h
  | ok x => exact ⟨x, rfl⟩

/-- A successful alias lookup yields a value stored in the alias table. -/
theorem aliasLookup_mem {s : String} {a : PyVal} (h : aliasLookup s = some a) :
    a ∈ PIN_ALIASES.map Prod.snd := by
  unfold aliasLookup at h
  cases hq : PIN_ALIASES.find? (fun p => p.1 = s) with
  | none => rw [hq] at h; simp at h
  | some q =>
    rw [hq] at h
    simp at h
    subst h
    exact List.mem_map_of_mem Prod.snd (List.mem_of_find?_eq_some hq)

/-- Every value stored in the pin-alias table normalizes without error. -/
theorem normalizePin_alias_ok {a : PyVal} (h : a ∈ PIN_ALIASES.map Prod.snd) :
    ∃ r, normalizePin a = .ok r := by
  have hall : ∀ x ∈ PIN_ALIASES.map Prod.snd, (normalizePin x).isOk = true := by decide
  exact exists_ok_of_isOk (hall a h)

/-- `normalize_value` never raises. -/
theorem normalizeValue_ok (v : PyVal) (varTy : Option String) :
    ∃ s, normalizeValue v varTy = .ok s := by
  cases v with
  | vInt n => exact ⟨_, rfl⟩
  | vFloat s => exact ⟨_, rfl⟩
  | vStr s =>
    show ∃ r, normalizeValue (.vStr s) varTy = .ok r
    rw [normalizeValue]
    split
    · exact ⟨_, rfl⟩
    · split
      · exact ⟨_, rfl⟩
      · split
        · next a ha => exact normalizePin_alias_ok (aliasLookup_mem ha)
        · split
          · exact ⟨_, rfl⟩
          · exact ⟨_, rfl⟩

/-- A pin satisfying `pinOK` normalizes without error. -/
theorem normalizePin_ok {p : PyVal} (h : pinOK p = true) :
    ∃ s, normalizePin p = .ok s := by
  cases p with
  | vInt n => exact ⟨_, rfl⟩
  | vFloat s => exact ⟨_, rfl⟩
  | vStr s =>
    rw [pinOK] at h
    rw [normalizePin]
    cases ha : aliasLookup s with
    | none =>
      simp only [ha, Option.getD]
      split
      · exact ⟨_, rfl⟩
      · split
        · exact ⟨_, rfl⟩
        · exact ⟨_, rfl⟩
    | some a =>
      rw [ha] at h
      cases a with
      | vStr s2 =>
        simp only [ha, Option.getD]
        split
        · exact ⟨_, rfl⟩
        · split
          · exact ⟨_, rfl⟩
          · exact ⟨_, rfl⟩
      | vInt n => simp at h
      | vFloat f => simp at h

/-- `generate_pin_declaration` succeeds whenever its pin normalizes. -/
theorem genPinDecl_ok {p : PyVal} (h : pinOK p = true) (st : GenSt)
    (mode : PyVal) (value : Option PyVal) :
    ∃ st2, genPinDecl st p mode value = .ok st2 := by
  obtain ⟨s, hs⟩ := normalizePin_ok h
  unfold genPinDecl
  rw [hs]
  dsimp only
  cases value with
  | none => exact ⟨_, rfl⟩
  | some v =>
    dsimp only
    by_cases hm : pinModeOf mode = "OUTPUT"
    · rw [if_pos hm]; exact ⟨_, rfl⟩
    · rw [if_neg hm]; exact ⟨_, rfl⟩

/-- A generator fold succeeds when the per-node generator succeeds on every
member. -/
theorem genList_ok {g : GenSt → Node → Except String GenSt} {ns : List Node}
    (h : ∀ n ∈ ns, ∀ st, ∃ st2, g st n = .ok st2) :
    ∀ st, ∃ st2, genList g st ns = .ok st2 := by
  induction ns with
  | nil => intro st; exact ⟨st, rfl⟩
  | cons n rest ih =>
    intro st
    obtain ⟨st2, h2⟩ := h n (by simp) st
    obtain ⟨st3, h3⟩ := ih (fun m hm st0 => h m (by simp [hm]) st0) st2
    exact ⟨st3, by unfold genList; rw [h2]; exact h3⟩

/-- Generation succeeds on every node that is safe at the same fuel. -/
theorem genNodeF_ok : ∀ (fuel : Nat) (n : Node) (st : GenSt),
    nodeSafeF fuel n = true → ∃ st2, genNodeF fuel st n = .ok st2 := by
  intro fuel
  induction fuel with
  | zero => intro n st h; simp [nodeSafeF] at h
  | succ fuel ih =>
    intro n st h
    cases n with
    | program cs => exact ⟨st, rfl⟩
    | pinDecl p mode value =>
      have hp : pinOK p = true := by simpa [nodeSafeF] using h
      exact genPinDecl_ok hp st mode value
    | digitalWrite p v =>
      have hp : pinOK p = true := by simpa [nodeSafeF] using h
      obtain ⟨s, hs⟩ := normalizePin_ok hp
      obtain ⟨vs, hv⟩ := normalizeValue_ok v none
      cases hg : genNodeF (fuel + 1) st (.digitalWrite p v) with
      | ok st2 => exact ⟨st2, rfl⟩
      | error e => simp [genNodeF, hs, hv] at hg
    | digitalRead p =>
      have hp : pinOK p = true := by simpa [nodeSafeF] using h
      obtain ⟨s, hs⟩ := normalizePin_ok hp
      cases hg : genNodeF (fuel + 1) st (.digitalRead p) with
      | ok st2 => exact ⟨st2, rfl⟩
      | error e => simp [genNodeF, hs] at hg
    | analogWrite p v =>
      have hp : pinOK p = true := by simpa [nodeSafeF] using h
      obtain ⟨s, hs⟩ := normalizePin_ok hp
      cases hg : genNodeF (fuel + 1) st (.analogWrite p v) with
      | ok st2 => exact ⟨st2, rfl⟩
      | error e => simp [genNodeF, hs] at hg
    | analogRead p =>
      have hp : pinOK p = true := by simpa [nodeSafeF] using h
      obtain ⟨s, hs⟩ := normalizePin_ok hp
      cases hg : genNodeF (fuel + 1) st (.analogRead p) with
      | ok st2 => exact ⟨st2, rfl⟩
      | error e => simp [genNodeF, hs] at hg
    | delayN d => exact ⟨_, rfl⟩
    | serialBegin b => exact ⟨_, rfl⟩
    | serialPrint v nl =>
      cases nl with
      | true => exact ⟨_, rfl⟩
      | false => exact ⟨_, rfl⟩
    | loopN cs =>
      have hcs : ∀ m ∈ cs, nodeSafeF fuel m = true := by
        have hh := h
        simp only [nodeSafeF, List.all_eq_true] at hh
        exact fun m hm => hh m hm
      have hres := @genList_ok (genNodeF fuel) cs
        (fun m hm st0 => ih m st0 (hcs m hm)) st
      simpa [genNodeF] using hres
    | ifN cond cs => simp [nodeSafeF] at h
    | varDecl name vty value =>
      cases value with
      | none => exact ⟨_, rfl⟩
      | some v =>
        obtain ⟨vs, hv⟩ := normalizeValue_ok v (some vty)
        cases hg : genNodeF (fuel + 1) st (.varDecl name vty (some v)) with
        | ok st2 => exact ⟨st2, rfl⟩
        | error e => simp [genNodeF, hv] at hg
    | assign name v =>
      obtain ⟨vs, hv⟩ := normalizeValue_ok v none
      cases hg : genNodeF (fuel + 1) st (.assign name v) with
      | ok st2 => exact ⟨st2, rfl⟩
      | error e => simp [genNodeF, hv] at hg
    | funcCall name args cs => exact ⟨_, rfl⟩
    | binOp l op r =>
      obtain ⟨vs, hv⟩ := normalizeValue_ok r none
      cases hg : genNodeF (fuel + 1) st (.binOp l op r) with
      | ok st2 => exact ⟨st2, rfl⟩
      | error e => simp [genNodeF, hv] at hg

/-- Phase 1 succeeds when every child generates. -/
theorem generateSetup_ok (children : List Node)
    (hg : ∀ st, ∃ st2, genNodes st children = .ok st2) (st : GenSt) :
    ∃ st2, generateSetup st children = .ok st2 := by
  cases hsu : generateSetup st children with
  | ok st2 => exact ⟨st2, rfl⟩
  | error e =>
    exfalso
    unfold generateSetup at hsu
    dsimp only at hsu
    obtain ⟨st2, h2⟩ := hg _
    rw [h2] at hsu
    simp at hsu

/-- Phase 2 succeeds when every child generates. -/
theorem generateLoopPhase_ok (children : List Node)
    (hg : ∀ n ∈ children, ∀ st, ∃ st2, genNode st n = .ok st2) (st : GenSt) :
    ∃ st2, generateLoopPhase st children = .ok st2 := by
  cases hl : generateLoopPhase st children with
  | ok st2 => exact ⟨st2, rfl⟩
  | error e =>
    exfalso
    unfold generateLoopPhase at hl
    dsimp only at hl
    cases hf : children.find? isLoopN with
    | none => rw [hf] at hl; simp at hl
    | some n =>
      rw [hf] at hl
      dsimp only at hl
      obtain ⟨st2, h2⟩ := hg n (List.mem_of_find?_eq_some hf) _
      rw [h2] at hl
      simp at hl

/-- Claim C1, amended: the generator is total over every AST whose pins all
normalize (no symbolic alias resolving to a numeric pin) and that contains
no `If` node; on those ASTs the only fallback is the unmapped-type default.
It is not total over everything the parser can produce: a pin alias mapping
to a numeric pin raises `AttributeError` in `normalize_pin`, and an `If`
node always raises `NameError` because `generate_expression` references the
unimported name `BinaryOpNode` (see `generation_crashes_on_parser_output`
for both failures on parser-produced ASTs). -/
theorem generation_total_on_safe_nodes :
    ∀ (children : List Node), nodesSafe children = true →
      ∃ out, generateLines children = .ok out := by
  intro children h
  have hall : ∀ n ∈ children, nodeSafe n = true := by
    simpa [nodesSafe, List.all_eq_true] using h
  have hgen : ∀ n ∈ children, ∀ st, ∃ st2, genNode st n = .ok st2 := by
    intro n hn st
    exact genNodeF_ok recLimit n st (hall n hn)
  have hlist : ∀ st, ∃ st2, genNodes st children = .ok st2 :=
    fun st => genList_ok hgen st
  obtain ⟨stS, hsu⟩ := generateSetup_ok children hlist (generateHeader initGenSt)
  obtain ⟨stL, hl⟩ := generateLoopPhase_ok children hgen stS
  refine ⟨stL.output, ?_⟩
  unfold generateLines
  simp only [hsu, hl]

/-- Witness for `generation_total_on_safe_nodes`: the empty program is safe
and generates successfully. -/
theorem generation_total_witness : ∃ out, generateLines [] = .ok out :=
  generation_total_on_safe_nodes [] (by decide)

/-! ### The initialization block of a lone pin declaration (claim C3) -/

/-- `pinOK` holds whenever normalization succeeds. -/
theorem pinOK_of_normalizePin {p : PyVal} {ps : String}
    (h : normalizePin p = .ok ps) : pinOK p = true := by
  cases p with
  | vInt n => rfl
  | vFloat f => rfl
  | vStr s =>
    rw [pinOK]
    cases ha : aliasLookup s with
    | none => simp [ha]
    | some a =>
      rw [normalizePin, ha] at h
      cases a with
      | vStr s2 => simp [ha]
      | vInt n => simp [Option.getD] at h
      | vFloat f => simp [Option.getD] at h

/-- Translating a single valueless pin declaration emits exactly its
pin-mode-configuration line. -/
theorem genNodes_single_pin {pin : PyVal} {ps : String}
    (hp : normalizePin pin = .ok ps) (mode : PyVal) (st : GenSt) :
    genNodes st [Node.pinDecl pin mode none] =
      .ok (emit st [s!"{indentStr st.indent}pinMode({ps}, {pinModeOf mode});"]) := by
  unfold genNodes genList
  rw [show genNode st (.pinDecl pin mode none) = genPinDecl st pin mode none from rfl]
  unfold genPinDecl
  rw [hp]
  rfl

/-- Claim C3, amended: for every program whose only top-level statement is a
single pin declaration in output mode with no initial value, the generated
initialization block consists of exactly one statement — the
pin-mode-configuration call for that pin — and therefore zero write calls.
The original claim's "regardless of what other statements the program
contains" fails: see `setup_contains_loop_writes`. -/
theorem single_pin_decl_setup :
    ∀ (pin : PyVal) (st : GenSt), pinOK pin = true →
      ∃ ps st2, normalizePin pin = .ok ps ∧
        generateSetup st [Node.pinDecl pin (.vStr "выход") none] = .ok st2 ∧
        st2.output = st.output ++
          ["void setup() \x7b", s!"{indentStr (st.indent + 1)}pinMode({ps}, {outMode});",
           "\x7d", ""] ∧ outMode = "OUTPUT" := by
  intro pin st hpin
  obtain ⟨ps, hp⟩ := normalizePin_ok hpin
  refine ⟨ps, ?_⟩
  cases hsu : generateSetup st [Node.pinDecl pin (.vStr "выход") none] with
  | error e =>
    exfalso
    unfold generateSetup at hsu
    dsimp only at hsu
    rw [genNodes_single_pin hp] at hsu
    simp at hsu
  | ok st2 =>
    refine ⟨st2, hp, rfl, ?_, rfl⟩
    unfold generateSetup at hsu
    dsimp only at hsu
    rw [genNodes_single_pin hp] at hsu
    simp only [Except.ok.injEq] at hsu
    subst hsu
    simp [emit, outMode]

/-- Witness for `single_pin_decl_setup`: pin 13 from a fresh generator
state. -/
theorem single_pin_decl_setup_witness :
    ∃ ps st2, normalizePin (.vInt 13) = .ok ps ∧
      generateSetup initGenSt [Node.pinDecl (.vInt 13) (.vStr "выход") none] = .ok st2 ∧
      st2.output = initGenSt.output ++
        ["void setup() \x7b",
         s!"{indentStr (initGenSt.indent + 1)}pinMode({ps}, {outMode});", "\x7d", ""] ∧
      outMode = "OUTPUT" :=
  single_pin_decl_setup (.vInt 13) initGenSt (by decide)

/-! ### Output frame of the generators (claims C4 and C6) -/

/-- `toString` on a string is the identity. -/
theorem toString_string (s : String) : toString s = s := rfl

/-- The character list of `String.mk`. -/
theorem data_mk (l : List Char) : (String.mk l).data = l := rfl

/-- A line whose first character exists and is not `#` satisfies `noHash`. -/
theorem noHash_of_head {l : String} (h : l.data.head? = some ' ') :
    noHash l = true := by
  simp [noHash, h]

/-- The head of a nonempty indent. -/
theorem head_indentStr {k : Nat} (hk : 1 ≤ k) :
    (indentStr k).data.head? = some ' ' := by
  obtain ⟨m, rfl⟩ : ∃ m, k = m + 1 := ⟨k - 1, by omega⟩
  have h2 : 2 * (m + 1) = (2 * m + 1) + 1 := by ring
  simp [indentStr, data_mk, h2, List.replicate_succ]

/-- Distribute `head?` over string append. -/
theorem head_data_append_or (a b : String) :
    (a ++ b).data.head? = a.data.head?.or b.data.head? := by
  rw [String.data_append, List.head?_append]

/-- The head of the empty string's data. -/
theorem head_empty : ("" : String).data.head? = none := rfl

/-- Relational frame lemma for a generator fold: from two states with equal
indent, a fold either fails identically or appends the same lines to both
outputs, preserving the indent; inside a routine (indent at least one) every
appended line starts with an indent space, hence is not an include
directive. -/
theorem genList_rel {g : GenSt → Node → Except String GenSt}
    (hg : ∀ (n : Node) (st1 st2 : GenSt), st1.indent = st2.indent →
      (∃ e, g st1 n = .error e ∧ g st2 n = .error e) ∨
      (∃ d st1b st2b, g st1 n = .ok st1b ∧ g st2 n = .ok st2b ∧
        st1b.output = st1.output ++ d ∧ st2b.output = st2.output ++ d ∧
        st1b.indent = st1.indent ∧ st2b.indent = st2.indent ∧
        (1 ≤ st1.indent → ∀ l ∈ d, noHash l = true))) :
    ∀ (ns : List Node) (st1 st2 : GenSt), st1.indent = st2.indent →
      (∃ e, genList g st1 ns = .error e ∧ genList g st2 ns = .error e) ∨
      (∃ d st1b st2b, genList g st1 ns = .ok st1b ∧ genList g st2 ns = .ok st2b ∧
        st1b.output = st1.output ++ d ∧ st2b.output = st2.output ++ d ∧
        st1b.indent = st1.indent ∧ st2b.indent = st2.indent ∧
        (1 ≤ st1.indent → ∀ l ∈ d, noHash l = true)) := by
  intro ns
  induction ns with
  | nil =>
    intro st1 st2 h
    exact .inr ⟨[], st1, st2, rfl, rfl, by simp, by simp, rfl, rfl, by simp⟩
  | cons n rest ih =>
    intro st1 st2 h
    rcases hg n st1 st2 h with ⟨e, h1, h2⟩ |
      ⟨d, st1b, st2b, h1, h2, ho1, ho2, hi1, hi2, hnh⟩
    · exact .inl ⟨e, by simp [genList, h1], by simp [genList, h2]⟩
    · have hib : st1b.indent = st2b.indent := by rw [hi1, hi2, h]
      rcases ih st1b st2b hib with ⟨e, g1, g2⟩ |
        ⟨d2, st1c, st2c, g1, g2, go1, go2, gi1, gi2, gnh⟩
      · exact .inl ⟨e, by simp [genList, h1, g1], by simp [genList, h2, g2]⟩
      · refine .inr ⟨d ++ d2, st1c, st2c, by simp [genList, h1, g1],
          by simp [genList, h2, g2],
          by rw [go1, ho1, List.append_assoc],
          by rw [go2, ho2, List.append_assoc],
          by rw [gi1, hi1], by rw [gi2, hi2], ?_⟩
        intro hind l hl
        rcases List.mem_append.mp hl with hl | hl
        · exact hnh hind l hl
        · exact gnh (by rw [hi1]; exact hind) l hl

/-- Relational frame lemma for `generate_node`: two states with equal indent
either fail with the same exception or receive the same appended lines. -/
theorem genNodeF_rel : ∀ (fuel : Nat) (n : Node) (st1 st2 : GenSt),
    st1.indent = st2.indent →
    (∃ e, genNodeF fuel st1 n = .error e ∧ genNodeF fuel st2 n = .error e) ∨
    (∃ d st1b st2b, genNodeF fuel st1 n = .ok st1b ∧ genNodeF fuel st2 n = .ok st2b ∧
      st1b.output = st1.output ++ d ∧ st2b.output = st2.output ++ d ∧
      st1b.indent = st1.indent ∧ st2b.indent = st2.indent ∧
      (1 ≤ st1.indent → ∀ l ∈ d, noHash l = true)) := by
  intro fuel
  induction fuel with
  | zero =>
    intro n st1 st2 h
    exact .inl ⟨"RecursionError", rfl, rfl⟩
  | succ fuel ih =>
    intro n st1 st2 h
    cases n with
    | program cs => exact .inr ⟨[], st1, st2, rfl, rfl, by simp, by simp, rfl, rfl, by simp⟩
    | pinDecl p mode value =>
      cases hs : normalizePin p with
      | error e =>
        exact .inl ⟨e, by simp [genNodeF, genPinDecl, hs], by simp [genNodeF, genPinDecl, hs]⟩
      | ok ps =>
        cases value with
        | none =>
          have e1 : genNodeF (fuel + 1) st1 (.pinDecl p mode none) =
              .ok (emit st1 [s!"{indentStr st1.indent}pinMode({ps}, {pinModeOf mode});"]) := by
            simp [genNodeF, genPinDecl, hs]
          have e2 : genNodeF (fuel + 1) st2 (.pinDecl p mode none) =
              .ok (emit st2 [s!"{indentStr st2.indent}pinMode({ps}, {pinModeOf mode});"]) := by
            simp [genNodeF, genPinDecl, hs]
          rw [← h] at e2
          refine .inr ⟨_, _, _, e1, e2, rfl, rfl, rfl, rfl, ?_⟩
          intro hind l hl
          simp only [List.mem_singleton] at hl
          subst hl
          exact noHash_of_head (by
            simp [toString_string, head_data_append_or, head_empty,
                  head_indentStr hind, Option.or])
        | some v =>
          by_cases hm : pinModeOf mode = "OUTPUT"
          · have e1 : genNodeF (fuel + 1) st1 (.pinDecl p mode (some v)) =
                .ok (emit (emit st1 [s!"{indentStr st1.indent}pinMode({ps}, {pinModeOf mode});"])
                  [s!"{indentStr st1.indent}digitalWrite({ps}, {pinInitValStr v});"]) := by
              simp [genNodeF, genPinDecl, hs, hm]
            have e2 : genNodeF (fuel + 1) st2 (.pinDecl p mode (some v)) =
                .ok (emit (emit st2 [s!"{indentStr st2.indent}pinMode({ps}, {pinModeOf mode});"])
                  [s!"{indentStr st2.indent}digitalWrite({ps}, {pinInitValStr v});"]) := by
              simp [genNodeF, genPinDecl, hs, hm]
            rw [← h] at e2
            refine .inr ⟨[s!"{indentStr st1.indent}pinMode({ps}, {pinModeOf mode});",
              s!"{indentStr st1.indent}digitalWrite({ps}, {pinInitValStr v});"],
              _, _, e1, e2, by simp [emit], by simp [emit], rfl, rfl, ?_⟩
            intro hind l hl
            simp only [List.mem_cons, List.mem_singleton, List.not_mem_nil, or_false] at hl
            rcases hl with hl | hl <;> subst hl <;>
              exact noHash_of_head (by
                simp [toString_string, head_data_append_or, head_empty,
                      head_indentStr hind, Option.or])
          · have e1 : genNodeF (fuel + 1) st1 (.pinDecl p mode (some v)) =
                .ok (emit st1 [s!"{indentStr st1.indent}pinMode({ps}, {pinModeOf mode});"]) := by
              simp [genNodeF, genPinDecl, hs, hm]
            have e2 : genNodeF (fuel + 1) st2 (.pinDecl p mode (some v)) =
                .ok (emit st2 [s!"{indentStr st2.indent}pinMode({ps}, {pinModeOf mode});"]) := by
              simp [genNodeF, genPinDecl, hs, hm]
            rw [← h] at e2
            refine .inr ⟨_, _, _, e1, e2, rfl, rfl, rfl, rfl, ?_⟩
            intro hind l hl
            simp only [List.mem_singleton] at hl
            subst hl
            exact noHash_of_head (by
              simp [toString_string, head_data_append_or, head_empty,
                    head_indentStr hind, Option.or])
    | digitalWrite p v =>
      cases hs : normalizePin p with
      | error e => exact .inl ⟨e, by simp [genNodeF, hs], by simp [genNodeF, hs]⟩
      | ok ps =>
        cases hv : normalizeValue v none with
        | error e => exact .inl ⟨e, by simp [genNodeF, hs, hv], by simp [genNodeF, hs, hv]⟩
        | ok vs =>
          have e1 : genNodeF (fuel + 1) st1 (.digitalWrite p v) =
              .ok (emit st1 [s!"{indentStr st1.indent}digitalWrite({ps}, {vs});"]) := by
            simp [genNodeF, hs, hv]
          have e2 : genNodeF (fuel + 1) st2 (.digitalWrite p v) =
              .ok (emit st2 [s!"{indentStr st2.indent}digitalWrite({ps}, {vs});"]) := by
            simp [genNodeF, hs, hv]
          rw [← h] at e2
          refine .inr ⟨_, _, _, e1, e2, rfl, rfl, rfl, rfl, ?_⟩
          intro hind l hl
          simp only [List.mem_singleton] at hl
          subst hl
          exact noHash_of_head (by
            simp [toString_string, head_data_append_or, head_empty,
                  head_indentStr hind, Option.or])
    | digitalRead p =>
      cases hs : normalizePin p with
      | error e => exact .inl ⟨e, by simp [genNodeF, hs], by simp [genNodeF, hs]⟩
      | ok ps =>
        have e1 : genNodeF (fuel + 1) st1 (.digitalRead p) =
            .ok (emit st1 [s!"{indentStr st1.indent}digitalRead({ps});"]) := by
          simp [genNodeF, hs]
        have e2 : genNodeF (fuel + 1) st2 (.digitalRead p) =
            .ok (emit st2 [s!"{indentStr st2.indent}digitalRead({ps});"]) := by
          simp [genNodeF, hs]
        rw [← h] at e2
        refine .inr ⟨_, _, _, e1, e2, rfl, rfl, rfl, rfl, ?_⟩
        intro hind l hl
        simp only [List.mem_singleton] at hl
        subst hl
        exact noHash_of_head (by
          simp [toString_string, head_data_append_or, head_empty,
                head_indentStr hind, Option.or])
    | analogWrite p v =>
      cases hs : normalizePin p with
      | error e => exact .inl ⟨e, by simp [genNodeF, hs], by simp [genNodeF, hs]⟩
      | ok ps =>
        have e1 : genNodeF (fuel + 1) st1 (.analogWrite p v) =
            .ok (emit st1 [s!"{indentStr st1.indent}analogWrite({ps}, {pyStr v});"]) := by
          simp [genNodeF, hs]
        have e2 : genNodeF (fuel + 1) st2 (.analogWrite p v) =
            .ok (emit st2 [s!"{indentStr st2.indent}analogWrite({ps}, {pyStr v});"]) := by
          simp [genNodeF, hs]
        rw [← h] at e2
        refine .inr ⟨_, _, _, e1, e2, rfl, rfl, rfl, rfl, ?_⟩
        intro hind l hl
        simp only [List.mem_singleton] at hl
        subst hl
        exact noHash_of_head (by
          simp [toString_string, head_data_append_or, head_empty,
                head_indentStr hind, Option.or])
    | analogRead p =>
      cases hs : normalizePin p with
      | error e => exact .inl ⟨e, by simp [genNodeF, hs], by simp [genNodeF, hs]⟩
      | ok ps =>
        have e1 : genNodeF (fuel + 1) st1 (.analogRead p) =
            .ok (emit st1 [s!"{indentStr st1.indent}analogRead({analogPinName ps});"]) := by
          simp [genNodeF, hs]
        have e2 : genNodeF (fuel + 1) st2 (.analogRead p) =
            .ok (emit st2 [s!"{indentStr st2.indent}analogRead({analogPinName ps});"]) := by
          simp [genNodeF, hs]
        rw [← h] at e2
        refine .inr ⟨_, _, _, e1, e2, rfl, rfl, rfl, rfl, ?_⟩
        intro hind l hl
        simp only [List.mem_singleton] at hl
        subst hl
        exact noHash_of_head (by
          simp [toString_string, head_data_append_or, head_empty,
                head_indentStr hind, Option.or])
    | delayN d =>
      have e1 : genNodeF (fuel + 1) st1 (.delayN d) =
          .ok (emit st1 [s!"{indentStr st1.indent}delay({pyStr d});"]) := by
        simp [genNodeF]
      have e2 : genNodeF (fuel + 1) st2 (.delayN d) =
          .ok (emit st2 [s!"{indentStr st2.indent}delay({pyStr d});"]) := by
        simp [genNodeF]
      rw [← h] at e2
      refine .inr ⟨_, _, _, e1, e2, rfl, rfl, rfl, rfl, ?_⟩
      intro hind l hl
      simp only [List.mem_singleton] at hl
      subst hl
      exact noHash_of_head (by
        simp [toString_string, head_data_append_or, head_empty,
              head_indentStr hind, Option.or])
    | serialBegin b =>
      have e1 : genNodeF (fuel + 1) st1 (.serialBegin b) =
          .ok { emit st1 [s!"{indentStr st1.indent}Serial.begin({pyStr b});"] with
                includes := includesAdd (emit st1 [s!"{indentStr st1.indent}Serial.begin({pyStr b});"]).includes "<SoftwareSerial.h>" } := by
        simp [genNodeF]
      have e2 : genNodeF (fuel + 1) st2 (.serialBegin b) =
          .ok { emit st2 [s!"{indentStr st2.indent}Serial.begin({pyStr b});"] with
                includes := includesAdd (emit st2 [s!"{indentStr st2.indent}Serial.begin({pyStr b});"]).includes "<SoftwareSerial.h>" } := by
        simp [genNodeF]
      rw [← h] at e2
      refine .inr ⟨_, _, _, e1, e2, rfl, rfl, rfl, rfl, ?_⟩
      intro hind l hl
      simp only [List.mem_singleton] at hl
      subst hl
      exact noHash_of_head (by
        simp [toString_string, head_data_append_or, head_empty,
              head_indentStr hind, Option.or])
    | serialPrint v nl =>
      cases nl with
      | true =>
        have e1 : genNodeF (fuel + 1) st1 (.serialPrint v true) =
            .ok (emit st1 [s!"{indentStr st1.indent}Serial.println({pyStr v});"]) := by
          simp [genNodeF]
        have e2 : genNodeF (fuel + 1) st2 (.serialPrint v true) =
            .ok (emit st2 [s!"{indentStr st2.indent}Serial.println({pyStr v});"]) := by
          simp [genNodeF]
        rw [← h] at e2
        refine .inr ⟨_, _, _, e1, e2, rfl, rfl, rfl, rfl, ?_⟩
        intro hind l hl
        simp only [List.mem_singleton] at hl
        subst hl
        exact noHash_of_head (by
          simp [toString_string, head_data_append_or, head_empty,
                head_indentStr hind, Option.or])
      | false =>
        have e1 : genNodeF (fuel + 1) st1 (.serialPrint v false) =
            .ok (emit st1 [s!"{indentStr st1.indent}Serial.print({pyStr v});"]) := by
          simp [genNodeF]
        have e2 : genNodeF (fuel + 1) st2 (.serialPrint v false) =
            .ok (emit st2 [s!"{indentStr st2.indent}Serial.print({pyStr v});"]) := by
          simp [genNodeF]
        rw [← h] at e2
        refine .inr ⟨_, _, _, e1, e2, rfl, rfl, rfl, rfl, ?_⟩
        intro hind l hl
        simp only [List.mem_singleton] at hl
        subst hl
        exact noHash_of_head (by
          simp [toString_string, head_data_append_or, head_empty,
                head_indentStr hind, Option.or])
    | loopN cs =>
      have e1 : genNodeF (fuel + 1) st1 (.loopN cs) = genList (genNodeF fuel) st1 cs := by
        simp [genNodeF]
      have e2 : genNodeF (fuel + 1) st2 (.loopN cs) = genList (genNodeF fuel) st2 cs := by
        simp [genNodeF]
      rcases @genList_rel (genNodeF fuel) (fun m s1 s2 hh => ih m s1 s2 hh) cs st1 st2 h with
        ⟨e, g1, g2⟩ | ⟨d, s1b, s2b, g1, g2, go1, go2, gi1, gi2, gnh⟩
      · exact .inl ⟨e, by rw [e1, g1], by rw [e2, g2]⟩
      · exact .inr ⟨d, s1b, s2b, by rw [e1, g1], by rw [e2, g2], go1, go2, gi1, gi2, gnh⟩
    | ifN cond cs =>
      exact .inl ⟨"NameError", by simp [genNodeF, genExpression], by simp [genNodeF, genExpression]⟩
    | varDecl name vty value =>
      cases value with
      | none =>
        have e1 : genNodeF (fuel + 1) st1 (.varDecl name vty none) =
            .ok { emit st1 [s!"{indentStr st1.indent}{mapType vty} {pyStr name};"] with
                  vars := varSet (emit st1 [s!"{indentStr st1.indent}{mapType vty} {pyStr name};"]).vars name (vty, none) } := by
          simp [genNodeF]
        have e2 : genNodeF (fuel + 1) st2 (.varDecl name vty none) =
            .ok { emit st2 [s!"{indentStr st2.indent}{mapType vty} {pyStr name};"] with
                  vars := varSet (emit st2 [s!"{indentStr st2.indent}{mapType vty} {pyStr name};"]).vars name (vty, none) } := by
          simp [genNodeF]
        rw [← h] at e2
        refine .inr ⟨_, _, _, e1, e2, rfl, rfl, rfl, rfl, ?_⟩
        intro hind l hl
        simp only [List.mem_singleton] at hl
        subst hl
        exact noHash_of_head (by
          simp [toString_string, head_data_append_or, head_empty,
                head_indentStr hind, Option.or])
      | some v =>
        cases hv : normalizeValue v (some vty) with
        | error e => exact .inl ⟨e, by simp [genNodeF, hv], by simp [genNodeF, hv]⟩
        | ok vs =>
          have e1 : genNodeF (fuel + 1) st1 (.varDecl name vty (some v)) =
              .ok { emit st1 [s!"{indentStr st1.indent}{mapType vty} {pyStr name} = {vs};"] with
                    vars := varSet (emit st1 [s!"{indentStr st1.indent}{mapType vty} {pyStr name} = {vs};"]).vars name (vty, some v) } := by
            simp [genNodeF, hv]
          have e2 : genNodeF (fuel + 1) st2 (.varDecl name vty (some v)) =
              .ok { emit st2 [s!"{indentStr st2.indent}{mapType vty} {pyStr name} = {vs};"] with
                    vars := varSet (emit st2 [s!"{indentStr st2.indent}{mapType vty} {pyStr name} = {vs};"]).vars name (vty, some v) } := by
            simp [genNodeF, hv]
          rw [← h] at e2
          refine .inr ⟨_, _, _, e1, e2, rfl, rfl, rfl, rfl, ?_⟩
          intro hind l hl
          simp only [List.mem_singleton] at hl
          subst hl
          exact noHash_of_head (by
            simp [toString_string, head_data_append_or, head_empty,
                  head_indentStr hind, Option.or])
    | assign name v =>
      cases hv : normalizeValue v none with
      | error e => exact .inl ⟨e, by simp [genNodeF, hv], by simp [genNodeF, hv]⟩
      | ok vs =>
        have e1 : genNodeF (fuel + 1) st1 (.assign name v) =
            .ok (emit st1 [s!"{indentStr st1.indent}{pyStr name} = {vs};"]) := by
          simp [genNodeF, hv]
        have e2 : genNodeF (fuel + 1) st2 (.assign name v) =
            .ok (emit st2 [s!"{indentStr st2.indent}{pyStr name} = {vs};"]) := by
          simp [genNodeF, hv]
        rw [← h] at e2
        refine .inr ⟨_, _, _, e1, e2, rfl, rfl, rfl, rfl, ?_⟩
        intro hind l hl
        simp only [List.mem_singleton] at hl
        subst hl
        exact noHash_of_head (by
          simp [toString_string, head_data_append_or, head_empty,
                head_indentStr hind, Option.or])
    | funcCall name args cs =>
      have e1 : genNodeF (fuel + 1) st1 (.funcCall name args cs) =
          (let argStr := String.intercalate ", " (args.map pyStr)
           .ok (emit st1 [s!"{indentStr st1.indent}{pyStr name}({argStr});"])) := by
        simp [genNodeF]
      have e2 : genNodeF (fuel + 1) st2 (.funcCall name args cs) =
          (let argStr := String.intercalate ", " (args.map pyStr)
           .ok (emit st2 [s!"{indentStr st2.indent}{pyStr name}({argStr});"])) := by
        simp [genNodeF]
      rw [← h] at e2
      refine .inr ⟨_, _, _, e1, e2, rfl, rfl, rfl, rfl, ?_⟩
      intro hind l hl
      simp only [List.mem_singleton] at hl
      subst hl
      exact noHash_of_head (by
        simp [toString_string, head_data_append_or, head_empty,
              head_indentStr hind, Option.or])
    | binOp lt op rt =>
      cases hv : normalizeValue rt none with
      | error e => exact .inl ⟨e, by simp [genNodeF, hv], by simp [genNodeF, hv]⟩
      | ok vs =>
        refine .inr ⟨[], st1, st2, by simp [genNodeF, hv], by simp [genNodeF, hv],
          by simp, by simp, rfl, rfl, by simp⟩

/-- Phase 1 appends the routine wrapper and the children's lines, restoring
the indent; every line of the body avoids a leading `#`. -/
theorem generateSetup_output (children : List Node) (st st2 : GenSt)
    (h : generateSetup st children = .ok st2) :
    ∃ d, st2.output = st.output ++ ["void setup() \x7b"] ++ d ++ ["\x7d", ""] ∧
      st2.indent = st.indent ∧ (∀ l ∈ d, noHash l = true) := by
  unfold generateSetup at h
  dsimp only at h
  rcases @genList_rel genNode
      (fun n s1 s2 hh => genNodeF_rel recLimit n s1 s2 hh) children
      ({ emit st ["void setup() \x7b"] with indent := st.indent + 1 })
      ({ emit st ["void setup() \x7b"] with indent := st.indent + 1 }) rfl with
    ⟨e, g1, _⟩ | ⟨d, s1b, _, g1, _, go1, _, gi1, _, gnh⟩
  · rw [show genNodes ({ emit st ["void setup() \x7b"] with indent := st.indent + 1 })
        children = .error e from g1] at h
    simp at h
  · rw [show genNodes ({ emit st ["void setup() \x7b"] with indent := st.indent + 1 })
        children = .ok s1b from g1] at h
    simp only [Except.ok.injEq] at h
    subst h
    refine ⟨d, ?_, ?_, ?_⟩
    · simp [emit] at go1 ⊢
      rw [go1]
      simp
    · simp [emit] at gi1 ⊢
      omega
    · exact fun l hl => gnh (by simp) l hl

/-- Phase 2 appends the routine wrapper and exactly the translation of the
first Loop node's body (empty when there is none), restoring the indent;
every body line avoids a leading `#`. -/
theorem generateLoopPhase_output (children : List Node) (st st2 : GenSt)
    (h0 : st.indent = 0) (h : generateLoopPhase st children = .ok st2) :
    ∃ d, loopBodyTranslation children = .ok d ∧
      st2.output = st.output ++ ["void loop() \x7b"] ++ d ++ ["\x7d"] ∧
      (∀ l ∈ d, noHash l = true) ∧
      (children.find? isLoopN = none → d = []) := by
  unfold generateLoopPhase at h
  dsimp only at h
  cases hf : children.find? isLoopN with
  | none =>
    rw [hf] at h
    dsimp only at h
    simp only [Except.ok.injEq] at h
    subst h
    exact ⟨[], by simp [loopBodyTranslation, hf], by simp [emit], by simp, fun _ => rfl⟩
  | some n =>
    rw [hf] at h
    dsimp only at h
    rcases genNodeF_rel recLimit n
        ({ emit st ["void loop() \x7b"] with indent := st.indent + 1 })
        loopCleanSt (by simp [emit, loopCleanSt, h0]) with
      ⟨e, g1, g2⟩ | ⟨d, s1b, s2b, g1, g2, go1, go2, gi1, gi2, gnh⟩
    · rw [show genNode ({ emit st ["void loop() \x7b"] with indent := st.indent + 1 }) n
          = .error e from g1] at h
      simp at h
    · rw [show genNode ({ emit st ["void loop() \x7b"] with indent := st.indent + 1 }) n
          = .ok s1b from g1] at h
      simp only [Except.ok.injEq] at h
      subst h
      have ht : loopBodyTranslation children = .ok d := by
        unfold loopBodyTranslation
        rw [hf]
        dsimp only
        rw [show genNode loopCleanSt n = .ok s2b from g2]
        simp [Except.map]
        simp [loopCleanSt] at go2
        simpa using go2
      refine ⟨d, ht, ?_, ?_, ?_⟩
      · simp [emit] at go1 ⊢
        rw [go1]
        simp
      · exact fun l hl => gnh (by simp [emit]) l hl
      · intro hnone
        simp at hnone

/-- Claim C4 (confirmed): for every program, the repeating-execution
routine's body is exactly the translation of the body of the first Loop node
among the Program children: empty when the program has no Loop node, and
untouched by any Loop node after the first (`loopBodyTranslation` selects
the first Loop via `find?`). -/
theorem repeating_routine_first_loop :
    ∀ (children : List Node) (st st2 : GenSt), st.indent = 0 →
      generateLoopPhase st children = .ok st2 →
      ∃ d, loopBodyTranslation children = .ok d ∧
        st2.output = st.output ++ ["void loop() \x7b"] ++ d ++ ["\x7d"] ∧
        (children.find? isLoopN = none → d = []) := by
  intro children st st2 h0 h
  obtain ⟨d, h1, h2, _, h4⟩ := generateLoopPhase_output children st st2 h0 h
  exact ⟨d, h1, h2, h4⟩

/-- Witness for `repeating_routine_first_loop`: the empty program produces
an empty repeating routine. -/
theorem repeating_routine_first_loop_witness :
    ∃ d, loopBodyTranslation [] = .ok d ∧
      ({ output := ["void loop() \x7b", "\x7d"], indent := 0, vars := [],
         inSetup := true, includes := ["<Arduino.h>"] } : GenSt).output =
        initGenSt.output ++ ["void loop() \x7b"] ++ d ++ ["\x7d"] ∧
      (([] : List Node).find? isLoopN = none → d = []) :=
  repeating_routine_first_loop [] initGenSt
    { output := ["void loop() \x7b", "\x7d"], indent := 0, vars := [],
      inSetup := true, includes := ["<Arduino.h>"] } rfl rfl

/-- A non-`#`-leading line is not an include directive. -/
theorem isInclude_false_of_noHash {l : String} (h : noHash l = true) :
    isIncludeLine l = false := by
  unfold noHash at h
  unfold isIncludeLine
  cases hd : l.data with
  | nil => simp [hd]
  | cons c rest =>
    rw [hd] at h
    simp only [List.head?_cons, ne_eq, decide_eq_true_eq] at h
    have hc : c ≠ '#' := fun hcc => h (by rw [hcc])
    have h8 : ("#include").data = '#' :: "include".data := rfl
    simp only [hd, h8, List.take_succ_cons, decide_eq_false_iff_not]
    intro hcontra
    exact hc (List.cons.injEq _ _ _ _ ▸ hcontra).1

/-- Claim C6, amended: for every program on which generation succeeds, the
include directives in the output are exactly the base hardware API header —
trivially sorted and de-duplicated.  The serial-communication header is
recorded when a serial initialization is generated, but the include
directives were already emitted by then, so it never appears (see
`serial_include_missing`). -/
theorem includes_always_base_only :
    ∀ (children : List Node) (ls : List String),
      generateLines children = .ok ls →
      ls.filter isIncludeLine = ["#include <Arduino.h>"] := by
  intro children ls h
  unfold generateLines at h
  dsimp only at h
  cases hsu : generateSetup (generateHeader initGenSt) children with
  | error e => rw [hsu] at h; simp at h
  | ok stS =>
    rw [hsu] at h
    dsimp only at h
    cases hlp : generateLoopPhase stS children with
    | error e => rw [hlp] at h; simp at h
    | ok stL =>
      rw [hlp] at h
      simp only [Except.ok.injEq] at h
      subst h
      obtain ⟨d1, ho1, hi1, hn1⟩ :=
        generateSetup_output children (generateHeader initGenSt) stS hsu
      have hi0 : stS.indent = 0 := by
        rw [hi1]; rfl
      obtain ⟨d2, _, ho2, hn2, _⟩ :=
        generateLoopPhase_output children stS stL hi0 hlp
      rw [ho2, ho1]
      have hH : (generateHeader initGenSt).output =
          ["// Сгенерировано ArduinoScript", "// Автоматически созданный код", "",
           "#include <Arduino.h>", ""] := rfl
      rw [hH]
      have hf1 : d1.filter isIncludeLine = [] := by
        rw [List.filter_eq_nil_iff]
        intro l hl
        simp [isInclude_false_of_noHash (hn1 l hl)]
      have hf2 : d2.filter isIncludeLine = [] := by
        rw [List.filter_eq_nil_iff]
        intro l hl
        simp [isInclude_false_of_noHash (hn2 l hl)]
      simp [List.filter_append, hf1, hf2, isIncludeLine]

set_option maxHeartbeats 4000000 in
/-- Witness for `includes_always_base_only`: the empty program. -/
theorem includes_always_base_only_witness :
    (outLines "").filter isIncludeLine = ["#include <Arduino.h>"] :=
  includes_always_base_only [] (outLines "") (by decide)

/-- `advance` under a known in-range token. -/
theorem adv_eq (s : PSt) (t : Tok) (ht : s.tokens.get? s.pos = some t) :
    adv s = { s with current := some t, pos := s.pos + 1 } := by
  unfold adv
  have hlt : s.pos < s.tokens.length := (List.get?_eq_some.mp ht).1
  rw [dif_pos hlt]
  have hg : s.tokens.get ⟨s.pos, hlt⟩ = t := (List.get?_eq_some.mp ht).2
  rw [hg]

/-- Claim C5, amended: whenever a pin declaration is missing its mode token
(well-formed `пин`, pin-number and `=` tokens followed by a token that is
none of the three mode keywords), the parser raises a syntax error whose
message is the fixed mode string — it never carries the offending token's
line and column, unlike the mismatch errors raised by `expect`. -/
theorem pin_mode_error_fixed_message
    (st : PSt) (t0 t1 t2 t3 : Tok)
    (h0 : st.current = some t0) (k0 : t0.ty = "PIN")
    (h1 : st.tokens.get? st.pos = some t1)
    (k1 : t1.ty = "INTEGER" ∨ t1.ty = "PIN_PREFIX" ∨ t1.ty = "ID")
    (h2 : st.tokens.get? (st.pos + 1) = some t2) (k2 : t2.ty = "ASSIGN")
    (h3 : st.tokens.get? (st.pos + 2) = some t3)
    (k3 : ¬(t3.ty = "OUTPUT" ∨ t3.ty = "INPUT" ∨ t3.ty = "INPUT_PULLUP")) :
    parsePinDeclaration st = .error (.syn pinModeErrMsg) := by
  have e1 : expectT st "PIN" = .ok (t0, adv st) := by
    unfold expectT
    rw [h0]
    dsimp only
    rw [if_pos k0]
  have a1 : adv st = { st with current := some t1, pos := st.pos + 1 } :=
    adv_eq st t1 h1
  have a2 : adv ({ st with current := some t1, pos := st.pos + 1 } : PSt) =
      { st with current := some t2, pos := st.pos + 2 } := by
    rw [adv_eq _ t2 h2]
  have a3 : adv ({ st with current := some t2, pos := st.pos + 2 } : PSt) =
      { st with current := some t3, pos := st.pos + 3 } := by
    rw [adv_eq _ t3 h3]
  have e2 : expectT ({ st with current := some t2, pos := st.pos + 2 } : PSt)
      "ASSIGN" = .ok (t2, ({ st with current := some t3, pos := st.pos + 3 } : PSt)) := by
    unfold expectT
    dsimp only
    rw [if_pos k2]
    rw [a3]
  unfold parsePinDeclaration
  rw [e1, a1]
  dsimp only
  rw [if_pos k1, a2, e2]
  dsimp only
  rw [if_neg k3]

set_option maxHeartbeats 4000000 in
/-- Witness for `pin_mode_error_fixed_message`: the tokens of `пин 13 = 5`,
whose fourth token `5` is not a mode keyword. -/
theorem pin_mode_error_fixed_message_witness :
    parsePinDeclaration (initPSt (tokenize pinErrSrc)) =
      .error (.syn pinModeErrMsg) :=
  pin_mode_error_fixed_message (initPSt (tokenize pinErrSrc))
    ⟨"PIN", .vStr "пин", 1, 1⟩ ⟨"INTEGER", .vInt 13, 1, 5⟩
    ⟨"ASSIGN", .vStr "=", 1, 8⟩ ⟨"INTEGER", .vInt 5, 1, 10⟩
    (by decide) (by decide) (by decide) (by decide)
    (by decide) (by decide) (by decide) (by decide)


/-- Under well-formedness the current token belongs to the token list. -/
theorem wfP_mem (st : PSt) (t : Tok) (hw : wfP st) (hc : st.current = some t) :
    t ∈ st.tokens := by
  unfold wfP at hw
  rw [hc] at hw
  exact List.get?_mem hw.2

theorem stepOK_refl (st : PSt) : stepOK st st :=
  ⟨rfl, Nat.le_refl _, Nat.le_refl _, fun w => w⟩

theorem stepOK_trans {a b c : PSt} (h1 : stepOK a b) (h2 : stepOK b c) :
    stepOK a c :=
  ⟨h2.1.trans h1.1, h1.2.1.trans h2.2.1, h2.2.2.1.trans h1.2.2.1,
   fun w => h2.2.2.2 (h1.2.2.2 w)⟩

theorem stepOK_symbols (st : PSt) (s : List (PyVal × Sym)) :
    stepOK st { st with symbols := s } :=
  ⟨rfl, Nat.le_refl _, Nat.le_refl _, fun w => w⟩

theorem adv_stepOK (st : PSt) : stepOK st (adv st) := by
  unfold stepOK adv
  split
  · refine ⟨rfl, by dsimp only; omega, ?_, ?_⟩
    · unfold msr
      cases hc : st.current <;> simp [hc] <;> omega
    · intro _
      unfold wfP
      dsimp only
      refine ⟨by omega, ?_⟩
      simp only [Nat.add_sub_cancel]
      exact List.get?_eq_get _
  · refine ⟨rfl, Nat.le_refl _, ?_, ?_⟩
    · unfold msr
      cases hc : st.current <;> simp [hc]
    · intro hw
      unfold wfP at hw ⊢
      dsimp only
      cases hc : st.current with
      | none => rw [hc] at hw; exact hw
      | some t =>
        rw [hc] at hw
        have hlt : st.pos - 1 < st.tokens.length :=
          (List.get?_eq_some.mp hw.2).1
        rename_i hn
        omega

theorem adv_msr_lt (st : PSt) (t : Tok) (hc : st.current = some t) :
    msr (adv st) < msr st := by
  unfold adv msr
  split
  · simp [hc]
    omega
  · rename_i hn
    simp [hc]

theorem adv_stepLT (st : PSt) (t : Tok) (hc : st.current = some t) :
    stepLT st (adv st) :=
  ⟨adv_stepOK st, adv_msr_lt st t hc⟩

theorem stepLT_trans {a b c : PSt} (h1 : stepLT a b) (h2 : stepOK b c) :
    stepLT a c :=
  ⟨stepOK_trans h1.1 h2, Nat.lt_of_le_of_lt h2.2.2.1 h1.2⟩

theorem stepOK_of_LT {a b : PSt} (h : stepLT a b) : stepOK a b := h.1

theorem expectT_ok (st : PSt) (k : String) (t : Tok) (st2 : PSt)
    (h : expectT st k = .ok (t, st2)) :
    st.current = some t ∧ t.ty = k ∧ st2 = adv st := by
  unfold expectT at h
  cases hc : st.current with
  | none => rw [hc] at h; exact Except.noConfusion h
  | some t0 =>
    rw [hc] at h
    dsimp only at h
    split at h
    · simp only [Except.ok.injEq, Prod.mk.injEq] at h
      obtain ⟨h1, h2⟩ := h
      subst h1
      rename_i hk
      exact ⟨rfl, hk, h2.symm⟩
    · exact Except.noConfusion h

theorem expectT_stepLT (st : PSt) (k : String) (t : Tok) (st2 : PSt)
    (h : expectT st k = .ok (t, st2)) : stepLT st st2 := by
  obtain ⟨hc, _, h2⟩ := expectT_ok st k t st2 h
  rw [h2]
  exact adv_stepLT st t hc

theorem expectT_noFuel (st : PSt) (k : String) :
    expectT st k ≠ .error .fuel := by
  unfold expectT
  cases hc : st.current with
  | none => intro h; simp at h
  | some t0 =>
    dsimp only
    split <;> intro h <;> simp at h

theorem curT_ok (st : PSt) (t : Tok) (h : curT st = .ok t) :
    st.current = some t := by
  unfold curT at h
  cases hc : st.current with
  | none => rw [hc] at h; exact Except.noConfusion h
  | some t0 =>
    rw [hc] at h
    simp only [Except.ok.injEq] at h
    rw [h]

theorem consumeOptEnd_stepOK (st : PSt) : stepOK st (consumeOptEnd st) := by
  unfold consumeOptEnd
  cases hc : st.current with
  | none => exact stepOK_refl st
  | some t =>
    dsimp only
    split
    · exact adv_stepOK st
    · exact stepOK_refl st

theorem initPSt_wfP (toks : List Tok) : wfP (initPSt toks) := by
  unfold initPSt adv
  split
  · unfold wfP
    dsimp only
    exact ⟨Nat.le_refl _, List.get?_eq_get _⟩
  · unfold wfP
    rename_i hn
    dsimp only at hn ⊢
    omega

theorem curT_noFuel (st : PSt) : curT st ≠ .error .fuel := by
  unfold curT
  cases hc : st.current <;> simp

/-- `parse_pin_declaration` never backtracks and consumes at least one
token. -/
theorem parsePinDeclaration_ok (st : PSt) (n : Node) (stF : PSt)
    (h : parsePinDeclaration st = .ok (n, stF)) : stepLT st stF := by
  unfold parsePinDeclaration at h
  cases hE1 : expectT st "PIN" with
  | error e => rw [hE1] at h; exact Except.noConfusion h
  | ok p1 =>
    obtain ⟨t0, st1⟩ := p1
    rw [hE1] at h
    try dsimp only at h
    have hS1 : stepLT st st1 := expectT_stepLT st "PIN" t0 st1 hE1
    cases hc1 : st1.current with
    | none => rw [hc1] at h; exact Except.noConfusion h
    | some t =>
      rw [hc1] at h
      try dsimp only at h
      split at h
      · try dsimp only at h
        cases hE2 : expectT (adv st1) "ASSIGN" with
        | error e => rw [hE2] at h; exact Except.noConfusion h
        | ok p2 =>
          obtain ⟨t1, st3⟩ := p2
          rw [hE2] at h
          try dsimp only at h
          have hS2 : stepOK st1 st3 :=
            stepOK_trans (adv_stepOK st1)
              (stepOK_of_LT (expectT_stepLT _ "ASSIGN" t1 st3 hE2))
          cases hc3 : st3.current with
          | none => rw [hc3] at h; exact Except.noConfusion h
          | some t2 =>
            rw [hc3] at h
            try dsimp only at h
            split at h
            · try dsimp only at h
              cases hc4 : (adv st3).current with
              | none =>
                rw [hc4] at h
                try dsimp only at h
                simp only [Except.ok.injEq, Prod.mk.injEq] at h
                obtain ⟨_, h2⟩ := h
                subst h2
                exact stepLT_trans hS1 (stepOK_trans hS2
                  (stepOK_trans (adv_stepOK st3) (stepOK_symbols _ _)))
              | some t3 =>
                rw [hc4] at h
                try dsimp only at h
                split at h
                · exact Except.noConfusion h
                · rename_i value st6 hvs
                  simp only [Except.ok.injEq, Prod.mk.injEq] at h
                  obtain ⟨_, h2⟩ := h
                  subst h2
                  have hS3 : stepOK (adv st3) st6 := by
                    split at hvs
                    · cases hc5 : (adv (adv st3)).current with
                      | none => rw [hc5] at hvs; exact Option.noConfusion hvs
                      | some t4 =>
                        rw [hc5] at hvs
                        dsimp only at hvs
                        split at hvs
                        · simp only [Option.some.injEq, Prod.mk.injEq] at hvs
                          obtain ⟨_, h6⟩ := hvs
                          subst h6
                          exact stepOK_trans (adv_stepOK _) (adv_stepOK _)
                        · simp only [Option.some.injEq, Prod.mk.injEq] at hvs
                          obtain ⟨_, h6⟩ := hvs
                          subst h6
                          exact adv_stepOK _
                    · simp only [Option.some.injEq, Prod.mk.injEq] at hvs
                      obtain ⟨_, h6⟩ := hvs
                      subst h6
                      exact stepOK_refl _
                  exact stepLT_trans hS1 (stepOK_trans hS2
                    (stepOK_trans (adv_stepOK st3)
                      (stepOK_trans hS3 (stepOK_symbols _ _))))
            · exact Except.noConfusion h
      · exact Except.noConfusion h

/-- `parse_pin_declaration` cannot exhaust fuel (it contains no loop). -/
theorem parsePinDeclaration_noFuel (st : PSt) :
    parsePinDeclaration st ≠ .error .fuel := by
  intro h
  unfold parsePinDeclaration at h
  repeat' first
    | split at h
    | dsimp only at h
  all_goals
    first
      | exact Except.noConfusion h
      | (injection h with he
         first
           | exact Err.noConfusion he
           | (subst he
              first
                | exact expectT_noFuel _ _ ‹_›
                | exact curT_noFuel _ ‹_›)
           | (injection he with he1 he2))

/-- `parse_serial_begin` never backtracks and consumes at least one token. -/
theorem parseSerialBegin_ok (st : PSt) (n : Node) (stF : PSt)
    (h : parseSerialBegin st = .ok (n, stF)) : stepLT st stF := by
  unfold parseSerialBegin at h
  cases hE1 : expectT st "SERIAL_BEGIN" with
  | error e => rw [hE1] at h; exact Except.noConfusion h
  | ok p1 =>
    obtain ⟨t0, st1⟩ := p1
    rw [hE1] at h
    try dsimp only at h
    cases hE2 : expectT st1 "LPAREN" with
    | error e => rw [hE2] at h; exact Except.noConfusion h
    | ok p2 =>
      obtain ⟨t1, st2⟩ := p2
      rw [hE2] at h
      try dsimp only at h
      cases hc : st2.current with
      | none => rw [hc] at h; exact Except.noConfusion h
      | some t =>
        rw [hc] at h
        try dsimp only at h
        split at h
        · exact Except.noConfusion h
        · try dsimp only at h
          cases hE3 : expectT (adv st2) "RPAREN" with
          | error e => rw [hE3] at h; exact Except.noConfusion h
          | ok p3 =>
            obtain ⟨t2, st4⟩ := p3
            rw [hE3] at h
            try dsimp only at h
            simp only [Except.ok.injEq, Prod.mk.injEq] at h
            obtain ⟨_, h2⟩ := h
            subst h2
            exact stepLT_trans (expectT_stepLT _ _ _ _ hE1)
              (stepOK_trans (stepOK_of_LT (expectT_stepLT _ _ _ _ hE2))
                (stepOK_trans (adv_stepOK _)
                  (stepOK_of_LT (expectT_stepLT _ _ _ _ hE3))))

/-- `parse_serial_begin` cannot exhaust fuel. -/
theorem parseSerialBegin_noFuel (st : PSt) :
    parseSerialBegin st ≠ .error .fuel := by
  intro h
  unfold parseSerialBegin at h
  repeat' first
    | split at h
    | dsimp only at h
  all_goals
    first
      | exact Except.noConfusion h
      | (injection h with he
         first
           | exact Err.noConfusion he
           | (subst he
              exact expectT_noFuel _ _ ‹_›))

/-- `parse_expression` never backtracks. -/
theorem parseExpression_ok (st : PSt) (c : CondV) (stF : PSt)
    (h : parseExpression st = .ok (c, stF)) : stepOK st stF := by
  unfold parseExpression at h
  cases hc : st.current with
  | none => rw [hc] at h; exact Except.noConfusion h
  | some t =>
    rw [hc] at h
    try dsimp only at h
    split at h
    · try dsimp only at h
      cases hc1 : (adv st).current with
      | none =>
        rw [hc1] at h
        try dsimp only at h
        simp only [Except.ok.injEq, Prod.mk.injEq] at h
        obtain ⟨_, h2⟩ := h
        subst h2
        exact adv_stepOK st
      | some t2 =>
        rw [hc1] at h
        try dsimp only at h
        split at h
        · try dsimp only at h
          cases hc2 : (adv (adv st)).current with
          | none => rw [hc2] at h; exact Except.noConfusion h
          | some t3 =>
            rw [hc2] at h
            try dsimp only at h
            split at h
            · simp only [Except.ok.injEq, Prod.mk.injEq] at h
              obtain ⟨_, h2⟩ := h
              subst h2
              exact stepOK_trans (adv_stepOK _)
                (stepOK_trans (adv_stepOK _) (adv_stepOK _))
            · simp only [Except.ok.injEq, Prod.mk.injEq] at h
              obtain ⟨_, h2⟩ := h
              subst h2
              exact stepOK_trans (adv_stepOK _) (adv_stepOK _)
        · simp only [Except.ok.injEq, Prod.mk.injEq] at h
          obtain ⟨_, h2⟩ := h
          subst h2
          exact adv_stepOK st
    · exact Except.noConfusion h

/-- `parse_expression` cannot exhaust fuel. -/
theorem parseExpression_noFuel (st : PSt) :
    parseExpression st ≠ .error .fuel := by
  intro h
  unfold parseExpression at h
  repeat' first
    | split at h
    | dsimp only at h
  all_goals
    first
      | exact Except.noConfusion h
      | (injection h with he
         exact Err.noConfusion he)

/-- `parse_variable_declaration` never backtracks and consumes at least one
token. -/
theorem parseVariableDeclaration_ok (st : PSt) (n : Node) (stF : PSt)
    (h : parseVariableDeclaration st = .ok (n, stF)) : stepLT st stF := by
  unfold parseVariableDeclaration at h
  cases hc : st.current with
  | none => rw [hc] at h; exact Except.noConfusion h
  | some t =>
    rw [hc] at h
    try dsimp only at h
    cases hE1 : expectT (adv st) "ID" with
    | error e => rw [hE1] at h; exact Except.noConfusion h
    | ok p1 =>
      obtain ⟨idt, st2⟩ := p1
      rw [hE1] at h
      try dsimp only at h
      have hS1 : stepLT st st2 :=
        stepLT_trans (adv_stepLT st t hc)
          (stepOK_of_LT (expectT_stepLT _ _ _ _ hE1))
      split at h
      · exact Except.noConfusion h
      · rename_i value st4 hvs
        simp only [Except.ok.injEq, Prod.mk.injEq] at h
        obtain ⟨_, h2⟩ := h
        subst h2
        have hS2 : stepOK st2 st4 := by
          cases hc2 : st2.current with
          | none =>
            rw [hc2] at hvs
            simp only [Option.some.injEq, Prod.mk.injEq] at hvs
            obtain ⟨_, h6⟩ := hvs
            subst h6
            exact stepOK_refl _
          | some t2 =>
            rw [hc2] at hvs
            dsimp only at hvs
            split at hvs
            · try dsimp only at hvs
              cases hc3 : (adv st2).current with
              | none => rw [hc3] at hvs; exact Option.noConfusion hvs
              | some t3 =>
                rw [hc3] at hvs
                dsimp only at hvs
                split at hvs
                · simp only [Option.some.injEq, Prod.mk.injEq] at hvs
                  obtain ⟨_, h6⟩ := hvs
                  subst h6
                  exact stepOK_trans (adv_stepOK _) (adv_stepOK _)
                · simp only [Option.some.injEq, Prod.mk.injEq] at hvs
                  obtain ⟨_, h6⟩ := hvs
                  subst h6
                  exact adv_stepOK _
            · simp only [Option.some.injEq, Prod.mk.injEq] at hvs
              obtain ⟨_, h6⟩ := hvs
              subst h6
              exact stepOK_refl _
        exact stepLT_trans hS1 (stepOK_trans hS2 (stepOK_symbols _ _))

/-- `parse_variable_declaration` cannot exhaust fuel. -/
theorem parseVariableDeclaration_noFuel (st : PSt) :
    parseVariableDeclaration st ≠ .error .fuel := by
  intro h
  unfold parseVariableDeclaration at h
  repeat' first
    | split at h
    | dsimp only at h
  all_goals
    first
      | exact Except.noConfusion h
      | (injection h with he
         first
           | exact Err.noConfusion he
           | (subst he
              exact expectT_noFuel _ _ ‹_›))

/-- `parse_assignment` never backtracks and consumes at least one token. -/
theorem parseAssignment_ok (st : PSt) (n : Node) (stF : PSt)
    (h : parseAssignment st = .ok (n, stF)) : stepLT st stF := by
  unfold parseAssignment at h
  cases hc : st.current with
  | none => rw [hc] at h; exact Except.noConfusion h
  | some t =>
    rw [hc] at h
    try dsimp only at h
    cases hE1 : expectT (adv st) "ASSIGN" with
    | error e => rw [hE1] at h; exact Except.noConfusion h
    | ok p1 =>
      obtain ⟨t1, st2⟩ := p1
      rw [hE1] at h
      try dsimp only at h
      cases hc2 : st2.current with
      | none => rw [hc2] at h; exact Except.noConfusion h
      | some t2 =>
        rw [hc2] at h
        try dsimp only at h
        simp only [Except.ok.injEq, Prod.mk.injEq] at h
        obtain ⟨_, h2⟩ := h
        subst h2
        exact stepLT_trans (adv_stepLT st t hc)
          (stepOK_trans (stepOK_of_LT (expectT_stepLT _ _ _ _ hE1))
            (adv_stepOK _))

/-- `parse_assignment` cannot exhaust fuel. -/
theorem parseAssignment_noFuel (st : PSt) :
    parseAssignment st ≠ .error .fuel := by
  intro h
  unfold parseAssignment at h
  repeat' first
    | split at h
    | dsimp only at h
  all_goals
    first
      | exact Except.noConfusion h
      | (injection h with he
         first
           | exact Err.noConfusion he
           | (subst he
              exact expectT_noFuel _ _ ‹_›))

/-- The argument loop never backtracks. -/
theorem parseFCArgs_ok : ∀ (fuel : Nat) (st : PSt) (args : List PyVal)
    (r : List PyVal × PSt), parseFCArgs fuel st args = .ok r → stepOK st r.2 := by
  intro fuel
  induction fuel with
  | zero => intro st args r h; exact Except.noConfusion h
  | succ f ih =>
    intro st args r h
    simp only [parseFCArgs] at h
    cases hc : st.current with
    | none =>
      rw [hc] at h
      try dsimp only at h
      simp only [Except.ok.injEq] at h
      subst h
      exact stepOK_refl st
    | some t =>
      rw [hc] at h
      try dsimp only at h
      split at h
      · simp only [Except.ok.injEq] at h
        subst h
        exact stepOK_refl st
      · split at h
        · exact Except.noConfusion h
        · rename_i a ha
          try dsimp only at h
          cases hc1 : (adv st).current with
          | none =>
            rw [hc1] at h
            try dsimp only at h
            exact stepOK_trans (adv_stepOK st) (ih _ _ _ h)
          | some cTok =>
            rw [hc1] at h
            try dsimp only at h
            split at h
            · exact stepOK_trans (adv_stepOK st)
                (stepOK_trans (adv_stepOK _) (ih _ _ _ h))
            · exact stepOK_trans (adv_stepOK st) (ih _ _ _ h)

/-- The argument loop always advances, so ample fuel is never exhausted. -/
theorem parseFCArgs_noFuel : ∀ (fuel : Nat) (st : PSt) (args : List PyVal),
    msr st < fuel → parseFCArgs fuel st args ≠ .error .fuel := by
  intro fuel
  induction fuel with
  | zero => intro st args hm; exact absurd hm (Nat.not_lt_zero _)
  | succ f ih =>
    intro st args hm h
    simp only [parseFCArgs] at h
    cases hc : st.current with
    | none => rw [hc] at h; exact Except.noConfusion h
    | some t =>
      rw [hc] at h
      try dsimp only at h
      split at h
      · exact Except.noConfusion h
      · split at h
        · injection h with he; exact Err.noConfusion he
        · rename_i a ha
          try dsimp only at h
          have hstep : msr (adv st) < f :=
            Nat.lt_of_lt_of_le (adv_msr_lt st t hc) (Nat.lt_succ_iff.mp hm)
          cases hc1 : (adv st).current with
          | none =>
            rw [hc1] at h
            try dsimp only at h
            exact ih _ _ hstep h
          | some cTok =>
            rw [hc1] at h
            try dsimp only at h
            split at h
            · exact ih _ _ (Nat.lt_of_le_of_lt (adv_stepOK (adv st)).2.2.1 hstep) h
            · exact ih _ _ hstep h

/-- `parse_function_call` never backtracks and consumes at least one
token. -/
theorem parseFunctionCall_ok (st : PSt) (n : Node) (stF : PSt)
    (h : parseFunctionCall st = .ok (n, stF)) : stepLT st stF := by
  unfold parseFunctionCall at h
  cases hT : curT st with
  | error e => rw [hT] at h; exact Except.noConfusion h
  | ok t =>
    rw [hT] at h
    try dsimp only at h
    have hc := curT_ok st t hT
    cases hE1 : expectT (adv st) "LPAREN" with
    | error e => rw [hE1] at h; exact Except.noConfusion h
    | ok p1 =>
      obtain ⟨t1, st2⟩ := p1
      rw [hE1] at h
      try dsimp only at h
      cases hA : parseFCArgs (msr st2 + 1) st2 [] with
      | error e => rw [hA] at h; exact Except.noConfusion h
      | ok p2 =>
        obtain ⟨args, st3⟩ := p2
        rw [hA] at h
        try dsimp only at h
        cases hE2 : expectT st3 "RPAREN" with
        | error e => rw [hE2] at h; exact Except.noConfusion h
        | ok p3 =>
          obtain ⟨t2, st4⟩ := p3
          rw [hE2] at h
          try dsimp only at h
          simp only [Except.ok.injEq, Prod.mk.injEq] at h
          obtain ⟨_, h2⟩ := h
          subst h2
          exact stepLT_trans (adv_stepLT st t hc)
            (stepOK_trans (stepOK_of_LT (expectT_stepLT _ _ _ _ hE1))
              (stepOK_trans (parseFCArgs_ok _ _ _ _ hA)
                (stepOK_of_LT (expectT_stepLT _ _ _ _ hE2))))

/-- `parse_function_call` cannot exhaust fuel: the argument loop is run with
one more unit of fuel than its measure. -/
theorem parseFunctionCall_noFuel (st : PSt) :
    parseFunctionCall st ≠ .error .fuel := by
  intro h
  unfold parseFunctionCall at h
  cases hT : curT st with
  | error e =>
    rw [hT] at h
    injection h with he
    subst he
    exact curT_noFuel st hT
  | ok t =>
    rw [hT] at h
    try dsimp only at h
    cases hE1 : expectT (adv st) "LPAREN" with
    | error e =>
      rw [hE1] at h
      injection h with he
      subst he
      exact expectT_noFuel _ _ hE1
    | ok p1 =>
      obtain ⟨t1, st2⟩ := p1
      rw [hE1] at h
      try dsimp only at h
      cases hA : parseFCArgs (msr st2 + 1) st2 [] with
      | error e =>
        rw [hA] at h
        injection h with he
        subst he
        exact parseFCArgs_noFuel _ st2 [] (Nat.lt_succ_self _) hA
      | ok p2 =>
        obtain ⟨args, st3⟩ := p2
        rw [hA] at h
        try dsimp only at h
        cases hE2 : expectT st3 "RPAREN" with
        | error e =>
          rw [hE2] at h
          injection h with he
          subst he
          exact expectT_noFuel _ _ hE2
        | ok p3 =>
          obtain ⟨t2, st4⟩ := p3
          rw [hE2] at h
          exact Except.noConfusion h

/-- The restricted statement loop never backtracks. -/
theorem parseRestrictedBody_ok (stops : List String) :
    ∀ (fuel : Nat) (st : PSt) (acc : List Node) (r : List Node × PSt),
      parseRestrictedBody stops fuel st acc = .ok r → stepOK st r.2 := by
  intro fuel
  induction fuel with
  | zero => intro st acc r h; exact Except.noConfusion h
  | succ f ih =>
    intro st acc r h
    simp only [parseRestrictedBody] at h
    cases hc : st.current with
    | none =>
      rw [hc] at h
      try dsimp only at h
      simp only [Except.ok.injEq] at h
      subst h
      exact stepOK_refl st
    | some t =>
      rw [hc] at h
      try dsimp only at h
      split at h
      · simp only [Except.ok.injEq] at h
        subst h
        exact stepOK_refl st
      · split at h
        · cases hF : parseFunctionCall st with
          | error e => rw [hF] at h; exact Except.noConfusion h
          | ok p =>
            obtain ⟨n1, st2⟩ := p
            rw [hF] at h
            try dsimp only at h
            exact stepOK_trans (stepOK_of_LT (parseFunctionCall_ok _ _ _ hF))
              (ih _ _ _ h)
        · exact stepOK_trans (adv_stepOK st) (ih _ _ _ h)

/-- The restricted statement loop always advances, so ample fuel is never
exhausted. -/
theorem parseRestrictedBody_noFuel (stops : List String) :
    ∀ (fuel : Nat) (st : PSt) (acc : List Node),
      msr st < fuel → parseRestrictedBody stops fuel st acc ≠ .error .fuel := by
  intro fuel
  induction fuel with
  | zero => intro st acc hm; exact absurd hm (Nat.not_lt_zero _)
  | succ f ih =>
    intro st acc hm h
    simp only [parseRestrictedBody] at h
    cases hc : st.current with
    | none => rw [hc] at h; exact Except.noConfusion h
    | some t =>
      rw [hc] at h
      try dsimp only at h
      split at h
      · exact Except.noConfusion h
      · split at h
        · cases hF : parseFunctionCall st with
          | error e =>
            rw [hF] at h
            injection h with he
            subst he
            exact parseFunctionCall_noFuel st hF
          | ok p =>
            obtain ⟨n1, st2⟩ := p
            rw [hF] at h
            try dsimp only at h
            have hlt : msr st2 < f :=
              Nat.lt_of_lt_of_le (parseFunctionCall_ok _ _ _ hF).2
                (Nat.lt_succ_iff.mp hm)
            exact ih _ _ hlt h
        · have hlt : msr (adv st) < f :=
            Nat.lt_of_lt_of_le (adv_msr_lt st t hc) (Nat.lt_succ_iff.mp hm)
          exact ih _ _ hlt h

/-- `parse_while` never backtracks and consumes at least one token. -/
theorem parseWhile_ok (st : PSt) (n : Node) (stF : PSt)
    (h : parseWhile st = .ok (n, stF)) : stepLT st stF := by
  unfold parseWhile at h
  cases hE1 : expectT st "WHILE" with
  | error e => rw [hE1] at h; exact Except.noConfusion h
  | ok p1 =>
    obtain ⟨t0, st1⟩ := p1
    rw [hE1] at h
    try dsimp only at h
    cases hX : parseExpression st1 with
    | error e => rw [hX] at h; exact Except.noConfusion h
    | ok p2 =>
      obtain ⟨cond, st2⟩ := p2
      rw [hX] at h
      try dsimp only at h
      cases hE2 : expectT st2 "COLON" with
      | error e => rw [hE2] at h; exact Except.noConfusion h
      | ok p3 =>
        obtain ⟨t1, st3⟩ := p3
        rw [hE2] at h
        try dsimp only at h
        cases hB : parseRestrictedBody ["EOF", "END"] (msr st3 + 1) st3 [] with
        | error e => rw [hB] at h; exact Except.noConfusion h
        | ok p4 =>
          obtain ⟨body, st4⟩ := p4
          rw [hB] at h
          try dsimp only at h
          simp only [Except.ok.injEq, Prod.mk.injEq] at h
          obtain ⟨_, h2⟩ := h
          subst h2
          exact stepLT_trans (expectT_stepLT _ _ _ _ hE1)
            (stepOK_trans (parseExpression_ok _ _ _ hX)
              (stepOK_trans (stepOK_of_LT (expectT_stepLT _ _ _ _ hE2))
                (stepOK_trans (parseRestrictedBody_ok _ _ _ _ _ hB)
                  (consumeOptEnd_stepOK st4))))

/-- `parse_while` cannot exhaust fuel. -/
theorem parseWhile_noFuel (st : PSt) : parseWhile st ≠ .error .fuel := by
  intro h
  unfold parseWhile at h
  cases hE1 : expectT st "WHILE" with
  | error e =>
    rw [hE1] at h
    injection h with he
    subst he
    exact expectT_noFuel _ _ hE1
  | ok p1 =>
    obtain ⟨t0, st1⟩ := p1
    rw [hE1] at h
    try dsimp only at h
    cases hX : parseExpression st1 with
    | error e =>
      rw [hX] at h
      injection h with he
      subst he
      exact parseExpression_noFuel _ hX
    | ok p2 =>
      obtain ⟨cond, st2⟩ := p2
      rw [hX] at h
      try dsimp only at h
      cases hE2 : expectT st2 "COLON" with
      | error e =>
        rw [hE2] at h
        injection h with he
        subst he
        exact expectT_noFuel _ _ hE2
      | ok p3 =>
        obtain ⟨t1, st3⟩ := p3
        rw [hE2] at h
        try dsimp only at h
        cases hB : parseRestrictedBody ["EOF", "END"] (msr st3 + 1) st3 [] with
        | error e =>
          rw [hB] at h
          injection h with he
          subst he
          exact parseRestrictedBody_noFuel _ _ st3 [] (Nat.lt_succ_self _) hB
        | ok p4 =>
          obtain ⟨body, st4⟩ := p4
          rw [hB] at h
          exact Except.noConfusion h

/-- `parse_if` never backtracks and consumes at least one token. -/
theorem parseIf_ok (st : PSt) (n : Node) (stF : PSt)
    (h : parseIf st = .ok (n, stF)) : stepLT st stF := by
  unfold parseIf at h
  cases hE1 : expectT st "IF" with
  | error e => rw [hE1] at h; exact Except.noConfusion h
  | ok p1 =>
    obtain ⟨t0, st1⟩ := p1
    rw [hE1] at h
    try dsimp only at h
    cases hX : parseExpression st1 with
    | error e => rw [hX] at h; exact Except.noConfusion h
    | ok p2 =>
      obtain ⟨cond, st2⟩ := p2
      rw [hX] at h
      try dsimp only at h
      cases hE2 : expectT st2 "COLON" with
      | error e => rw [hE2] at h; exact Except.noConfusion h
      | ok p3 =>
        obtain ⟨t1, st3⟩ := p3
        rw [hE2] at h
        try dsimp only at h
        cases hB : parseRestrictedBody ["EOF", "END", "ELSE", "ELIF"]
            (msr st3 + 1) st3 [] with
        | error e => rw [hB] at h; exact Except.noConfusion h
        | ok p4 =>
          obtain ⟨body, st4⟩ := p4
          rw [hB] at h
          try dsimp only at h
          have hS4 : stepLT st st4 :=
            stepLT_trans (expectT_stepLT _ _ _ _ hE1)
              (stepOK_trans (parseExpression_ok _ _ _ hX)
                (stepOK_trans (stepOK_of_LT (expectT_stepLT _ _ _ _ hE2))
                  (parseRestrictedBody_ok _ _ _ _ _ hB)))
          split at h
          · exact Except.noConfusion h
          · rename_i allBody st8 hAE
            simp only [Except.ok.injEq, Prod.mk.injEq] at h
            obtain ⟨_, h2⟩ := h
            subst h2
            have hS8 : stepOK st4 st8 := by
              cases hc4 : st4.current with
              | none =>
                rw [hc4] at hAE
                simp only [Except.ok.injEq, Prod.mk.injEq] at hAE
                obtain ⟨_, h8⟩ := hAE
                subst h8
                exact stepOK_refl _
              | some t2 =>
                rw [hc4] at hAE
                dsimp only at hAE
                split at hAE
                · try dsimp only at hAE
                  cases hc5 : (adv st4).current with
                  | none => rw [hc5] at hAE; exact Except.noConfusion hAE
                  | some t3 =>
                    rw [hc5] at hAE
                    dsimp only at hAE
                    split at hAE
                    · try dsimp only at hAE
                      cases hB2 : parseRestrictedBody ["EOF", "END"]
                          (msr (adv (adv st4)) + 1) (adv (adv st4)) [] with
                      | error e => rw [hB2] at hAE; exact Except.noConfusion hAE
                      | ok p5 =>
                        obtain ⟨more, st7⟩ := p5
                        rw [hB2] at hAE
                        try dsimp only at hAE
                        simp only [Except.ok.injEq, Prod.mk.injEq] at hAE
                        obtain ⟨_, h8⟩ := hAE
                        subst h8
                        exact stepOK_trans (adv_stepOK _)
                          (stepOK_trans (adv_stepOK _)
                            (parseRestrictedBody_ok _ _ _ _ _ hB2))
                    · simp only [Except.ok.injEq, Prod.mk.injEq] at hAE
                      obtain ⟨_, h8⟩ := hAE
                      subst h8
                      exact adv_stepOK _
                · simp only [Except.ok.injEq, Prod.mk.injEq] at hAE
                  obtain ⟨_, h8⟩ := hAE
                  subst h8
                  exact stepOK_refl _
            exact stepLT_trans hS4 (stepOK_trans hS8 (consumeOptEnd_stepOK st8))

/-- `parse_if` cannot exhaust fuel. -/
theorem parseIf_noFuel (st : PSt) : parseIf st ≠ .error .fuel := by
  intro h
  unfold parseIf at h
  cases hE1 : expectT st "IF" with
  | error e =>
    rw [hE1] at h
    injection h with he
    subst he
    exact expectT_noFuel _ _ hE1
  | ok p1 =>
    obtain ⟨t0, st1⟩ := p1
    rw [hE1] at h
    try dsimp only at h
    cases hX : parseExpression st1 with
    | error e =>
      rw [hX] at h
      injection h with he
      subst he
      exact parseExpression_noFuel _ hX
    | ok p2 =>
      obtain ⟨cond, st2⟩ := p2
      rw [hX] at h
      try dsimp only at h
      cases hE2 : expectT st2 "COLON" with
      | error e =>
        rw [hE2] at h
        injection h with he
        subst he
        exact expectT_noFuel _ _ hE2
      | ok p3 =>
        obtain ⟨t1, st3⟩ := p3
        rw [hE2] at h
        try dsimp only at h
        cases hB : parseRestrictedBody ["EOF", "END", "ELSE", "ELIF"]
            (msr st3 + 1) st3 [] with
        | error e =>
          rw [hB] at h
          injection h with he
          subst he
          exact parseRestrictedBody_noFuel _ _ st3 [] (Nat.lt_succ_self _) hB
        | ok p4 =>
          obtain ⟨body, st4⟩ := p4
          rw [hB] at h
          try dsimp only at h
          split at h
          · rename_i e hAE
            injection h with he
            subst he
            cases hc4 : st4.current with
            | none => rw [hc4] at hAE; exact Except.noConfusion hAE
            | some t2 =>
              rw [hc4] at hAE
              dsimp only at hAE
              split at hAE
              · try dsimp only at hAE
                cases hc5 : (adv st4).current with
                | none =>
                  rw [hc5] at hAE
                  injection hAE with he2
                  exact Err.noConfusion he2
                | some t3 =>
                  rw [hc5] at hAE
                  dsimp only at hAE
                  split at hAE
                  · try dsimp only at hAE
                    cases hB2 : parseRestrictedBody ["EOF", "END"]
                        (msr (adv (adv st4)) + 1) (adv (adv st4)) [] with
                    | error e2 =>
                      rw [hB2] at hAE
                      injection hAE with he2
                      subst he2
                      exact parseRestrictedBody_noFuel _ _ _ []
                        (Nat.lt_succ_self _) hB2
                    | ok p5 =>
                      obtain ⟨more, st7⟩ := p5
                      rw [hB2] at hAE
                      exact Except.noConfusion hAE
                  · exact Except.noConfusion hAE
              · exact Except.noConfusion hAE
          · exact Except.noConfusion h

/-- `parse_for` never backtracks and consumes at least one token. -/
theorem parseFor_ok (st : PSt) (n : Node) (stF : PSt)
    (h : parseFor st = .ok (n, stF)) : stepLT st stF := by
  unfold parseFor at h
  cases hE1 : expectT st "FOR" with
  | error e => rw [hE1] at h; exact Except.noConfusion h
  | ok p1 =>
    obtain ⟨t0, st1⟩ := p1
    rw [hE1] at h
    try dsimp only at h
    cases hE2 : expectT st1 "LPAREN" with
    | error e => rw [hE2] at h; exact Except.noConfusion h
    | ok p2 =>
      obtain ⟨t1, st2⟩ := p2
      rw [hE2] at h
      try dsimp only at h
      split at h
      · exact Except.noConfusion h
      · rename_i st3 hInit
        have hS3 : stepOK st2 st3 := by
          cases hc2 : st2.current with
          | none => rw [hc2] at hInit; exact Except.noConfusion hInit
          | some t2 =>
            rw [hc2] at hInit
            dsimp only at hInit
            split at hInit
            · cases hV : parseVariableDeclaration st2 with
              | error e => rw [hV] at hInit; exact Except.noConfusion hInit
              | ok pV =>
                obtain ⟨nV, stV⟩ := pV
                rw [hV] at hInit
                try dsimp only at hInit
                simp only [Except.ok.injEq] at hInit
                subst hInit
                exact stepOK_of_LT (parseVariableDeclaration_ok _ _ _ hV)
            · split at hInit
              · cases hA : parseAssignment st2 with
                | error e => rw [hA] at hInit; exact Except.noConfusion hInit
                | ok pA =>
                  obtain ⟨nA, stA⟩ := pA
                  rw [hA] at hInit
                  try dsimp only at hInit
                  simp only [Except.ok.injEq] at hInit
                  subst hInit
                  exact stepOK_of_LT (parseAssignment_ok _ _ _ hA)
              · simp only [Except.ok.injEq] at hInit
                subst hInit
                exact stepOK_refl _
        try dsimp only at h
        cases hE3 : expectT st3 "SEMICOLON" with
        | error e => rw [hE3] at h; exact Except.noConfusion h
        | ok p3 =>
          obtain ⟨t2, st4⟩ := p3
          rw [hE3] at h
          try dsimp only at h
          cases hX : parseExpression st4 with
          | error e => rw [hX] at h; exact Except.noConfusion h
          | ok p4 =>
            obtain ⟨cond, st5⟩ := p4
            rw [hX] at h
            try dsimp only at h
            cases hE4 : expectT st5 "SEMICOLON" with
            | error e => rw [hE4] at h; exact Except.noConfusion h
            | ok p5 =>
              obtain ⟨t3, st6⟩ := p5
              rw [hE4] at h
              try dsimp only at h
              split at h
              · exact Except.noConfusion h
              · rename_i st7 hInc
                have hS7 : stepOK st6 st7 := by
                  cases hc6 : st6.current with
                  | none => rw [hc6] at hInc; exact Except.noConfusion hInc
                  | some t4 =>
                    rw [hc6] at hInc
                    dsimp only at hInc
                    split at hInc
                    · cases hA : parseAssignment st6 with
                      | error e => rw [hA] at hInc; exact Except.noConfusion hInc
                      | ok pA =>
                        obtain ⟨nA, stA⟩ := pA
                        rw [hA] at hInc
                        try dsimp only at hInc
                        simp only [Except.ok.injEq] at hInc
                        subst hInc
                        exact stepOK_of_LT (parseAssignment_ok _ _ _ hA)
                    · simp only [Except.ok.injEq] at hInc
                      subst hInc
                      exact stepOK_refl _
                try dsimp only at h
                cases hE5 : expectT st7 "RPAREN" with
                | error e => rw [hE5] at h; exact Except.noConfusion h
                | ok p6 =>
                  obtain ⟨t5, st8⟩ := p6
                  rw [hE5] at h
                  try dsimp only at h
                  cases hE6 : expectT st8 "COLON" with
                  | error e => rw [hE6] at h; exact Except.noConfusion h
                  | ok p7 =>
                    obtain ⟨t6, st9⟩ := p7
                    rw [hE6] at h
                    try dsimp only at h
                    cases hB : parseRestrictedBody ["EOF", "END"]
                        (msr st9 + 1) st9 [] with
                    | error e => rw [hB] at h; exact Except.noConfusion h
                    | ok p8 =>
                      obtain ⟨body, st10⟩ := p8
                      rw [hB] at h
                      try dsimp only at h
                      simp only [Except.ok.injEq, Prod.mk.injEq] at h
                      obtain ⟨_, h2⟩ := h
                      subst h2
                      exact stepLT_trans (expectT_stepLT _ _ _ _ hE1)
                        (stepOK_trans (stepOK_of_LT (expectT_stepLT _ _ _ _ hE2))
                          (stepOK_trans hS3
                            (stepOK_trans (stepOK_of_LT (expectT_stepLT _ _ _ _ hE3))
                              (stepOK_trans (parseExpression_ok _ _ _ hX)
                                (stepOK_trans (stepOK_of_LT (expectT_stepLT _ _ _ _ hE4))
                                  (stepOK_trans hS7
                                    (stepOK_trans (stepOK_of_LT (expectT_stepLT _ _ _ _ hE5))
                                      (stepOK_trans (stepOK_of_LT (expectT_stepLT _ _ _ _ hE6))
                                        (stepOK_trans (parseRestrictedBody_ok _ _ _ _ _ hB)
                                          (consumeOptEnd_stepOK st10))))))))))

/-- `parse_for` cannot exhaust fuel. -/
theorem parseFor_noFuel (st : PSt) : parseFor st ≠ .error .fuel := by
  intro h
  unfold parseFor at h
  cases hE1 : expectT st "FOR" with
  | error e =>
    rw [hE1] at h
    injection h with he
    subst he
    exact expectT_noFuel _ _ hE1
  | ok p1 =>
    obtain ⟨t0, st1⟩ := p1
    rw [hE1] at h
    try dsimp only at h
    cases hE2 : expectT st1 "LPAREN" with
    | error e =>
      rw [hE2] at h
      injection h with he
      subst he
      exact expectT_noFuel _ _ hE2
    | ok p2 =>
      obtain ⟨t1, st2⟩ := p2
      rw [hE2] at h
      try dsimp only at h
      split at h
      · rename_i e hInit
        injection h with he
        subst he
        cases hc2 : st2.current with
        | none =>
          rw [hc2] at hInit
          injection hInit with he2
          exact Err.noConfusion he2
        | some t2 =>
          rw [hc2] at hInit
          dsimp only at hInit
          split at hInit
          · cases hV : parseVariableDeclaration st2 with
            | error e2 =>
              rw [hV] at hInit
              injection hInit with he2
              subst he2
              exact parseVariableDeclaration_noFuel _ hV
            | ok pV =>
              obtain ⟨nV, stV⟩ := pV
              rw [hV] at hInit
              exact Except.noConfusion hInit
          · split at hInit
            · cases hA : parseAssignment st2 with
              | error e2 =>
                rw [hA] at hInit
                injection hInit with he2
                subst he2
                exact parseAssignment_noFuel _ hA
              | ok pA =>
                obtain ⟨nA, stA⟩ := pA
                rw [hA] at hInit
                exact Except.noConfusion hInit
            · exact Except.noConfusion hInit
      · rename_i st3 hInit
        try dsimp only at h
        cases hE3 : expectT st3 "SEMICOLON" with
        | error e =>
          rw [hE3] at h
          injection h with he
          subst he
          exact expectT_noFuel _ _ hE3
        | ok p3 =>
          obtain ⟨t2, st4⟩ := p3
          rw [hE3] at h
          try dsimp only at h
          cases hX : parseExpression st4 with
          | error e =>
            rw [hX] at h
            injection h with he
            subst he
            exact parseExpression_noFuel _ hX
          | ok p4 =>
            obtain ⟨cond, st5⟩ := p4
            rw [hX] at h
            try dsimp only at h
            cases hE4 : expectT st5 "SEMICOLON" with
            | error e =>
              rw [hE4] at h
              injection h with he
              subst he
              exact expectT_noFuel _ _ hE4
            | ok p5 =>
              obtain ⟨t3, st6⟩ := p5
              rw [hE4] at h
              try dsimp only at h
              split at h
              · rename_i e hInc
                injection h with he
                subst he
                cases hc6 : st6.current with
                | none =>
                  rw [hc6] at hInc
                  injection hInc with he2
                  exact Err.noConfusion he2
                | some t4 =>
                  rw [hc6] at hInc
                  dsimp only at hInc
                  split at hInc
                  · cases hA : parseAssignment st6 with
                    | error e2 =>
                      rw [hA] at hInc
                      injection hInc with he2
                      subst he2
                      exact parseAssignment_noFuel _ hA
                    | ok pA =>
                      obtain ⟨nA, stA⟩ := pA
                      rw [hA] at hInc
                      exact Except.noConfusion hInc
                  · exact Except.noConfusion hInc
              · rename_i st7 hInc
                try dsimp only at h
                cases hE5 : expectT st7 "RPAREN" with
                | error e =>
                  rw [hE5] at h
                  injection h with he
                  subst he
                  exact expectT_noFuel _ _ hE5
                | ok p6 =>
                  obtain ⟨t5, st8⟩ := p6
                  rw [hE5] at h
                  try dsimp only at h
                  cases hE6 : expectT st8 "COLON" with
                  | error e =>
                    rw [hE6] at h
                    injection h with he
                    subst he
                    exact expectT_noFuel _ _ hE6
                  | ok p7 =>
                    obtain ⟨t6, st9⟩ := p7
                    rw [hE6] at h
                    try dsimp only at h
                    cases hB : parseRestrictedBody ["EOF", "END"]
                        (msr st9 + 1) st9 [] with
                    | error e =>
                      rw [hB] at h
                      injection h with he
                      subst he
                      exact parseRestrictedBody_noFuel _ _ st9 []
                        (Nat.lt_succ_self _) hB
                    | ok p8 =>
                      obtain ⟨body, st10⟩ := p8
                      rw [hB] at h
                      exact Except.noConfusion h

/-- The parameter loop never backtracks (though it need not advance). -/
theorem parseFDParams_ok : ∀ (fuel : Nat) (st : PSt)
    (params : List (String × PyVal)) (r : List (String × PyVal) × PSt),
      parseFDParams fuel st params = .ok r → stepOK st r.2 := by
  intro fuel
  induction fuel with
  | zero => intro st params r h; exact Except.noConfusion h
  | succ f ih =>
    intro st params r h
    simp only [parseFDParams] at h
    cases hc : st.current with
    | none =>
      rw [hc] at h
      try dsimp only at h
      simp only [Except.ok.injEq] at h
      subst h
      exact stepOK_refl st
    | some t =>
      rw [hc] at h
      try dsimp only at h
      split at h
      · simp only [Except.ok.injEq] at h
        subst h
        exact stepOK_refl st
      · split at h
        · try dsimp only at h
          cases hE : expectT (adv st) "ID" with
          | error e => rw [hE] at h; exact Except.noConfusion h
          | ok p =>
            obtain ⟨idt, st2⟩ := p
            rw [hE] at h
            try dsimp only at h
            cases hc2 : st2.current with
            | none =>
              rw [hc2] at h
              try dsimp only at h
              exact stepOK_trans (adv_stepOK st)
                (stepOK_trans (stepOK_of_LT (expectT_stepLT _ _ _ _ hE)) (ih _ _ _ h))
            | some cTok =>
              rw [hc2] at h
              try dsimp only at h
              split at h
              · exact stepOK_trans (adv_stepOK st)
                  (stepOK_trans (stepOK_of_LT (expectT_stepLT _ _ _ _ hE))
                    (stepOK_trans (adv_stepOK _) (ih _ _ _ h)))
              · exact stepOK_trans (adv_stepOK st)
                  (stepOK_trans (stepOK_of_LT (expectT_stepLT _ _ _ _ hE)) (ih _ _ _ h))
        · exact ih _ _ _ h

/-- `parse_function_declaration` never backtracks and consumes at least one
token when it succeeds. -/
theorem parseFunctionDeclaration_ok (st : PSt) (n : Node) (stF : PSt)
    (h : parseFunctionDeclaration st = .ok (n, stF)) : stepLT st stF := by
  unfold parseFunctionDeclaration at h
  cases hE1 : expectT st "FUNCTION" with
  | error e => rw [hE1] at h; exact Except.noConfusion h
  | ok p1 =>
    obtain ⟨t0, st1⟩ := p1
    rw [hE1] at h
    try dsimp only at h
    cases hE2 : expectT st1 "ID" with
    | error e => rw [hE2] at h; exact Except.noConfusion h
    | ok p2 =>
      obtain ⟨nameT, st2⟩ := p2
      rw [hE2] at h
      try dsimp only at h
      cases hE3 : expectT st2 "LPAREN" with
      | error e => rw [hE3] at h; exact Except.noConfusion h
      | ok p3 =>
        obtain ⟨t1, st3⟩ := p3
        rw [hE3] at h
        try dsimp only at h
        cases hP : parseFDParams (msr st3 + 1) st3 [] with
        | error e => rw [hP] at h; exact Except.noConfusion h
        | ok p4 =>
          obtain ⟨params, st4⟩ := p4
          rw [hP] at h
          try dsimp only at h
          cases hE4 : expectT st4 "RPAREN" with
          | error e => rw [hE4] at h; exact Except.noConfusion h
          | ok p5 =>
            obtain ⟨t2, st5⟩ := p5
            rw [hE4] at h
            try dsimp only at h
            cases hE5 : expectT st5 "COLON" with
            | error e => rw [hE5] at h; exact Except.noConfusion h
            | ok p6 =>
              obtain ⟨t3, st6⟩ := p6
              rw [hE5] at h
              try dsimp only at h
              cases hB : parseRestrictedBody ["EOF", "END", "RETURN"]
                  (msr { st6 with symbols := symSet st6.symbols nameT.val (.func params) } + 1)
                  { st6 with symbols := symSet st6.symbols nameT.val (.func params) } [] with
              | error e => rw [hB] at h; exact Except.noConfusion h
              | ok p7 =>
                obtain ⟨body, st8⟩ := p7
                rw [hB] at h
                try dsimp only at h
                have hS8 : stepLT st st8 :=
                  stepLT_trans (expectT_stepLT _ _ _ _ hE1)
                    (stepOK_trans (stepOK_of_LT (expectT_stepLT _ _ _ _ hE2))
                      (stepOK_trans (stepOK_of_LT (expectT_stepLT _ _ _ _ hE3))
                        (stepOK_trans (parseFDParams_ok _ _ _ _ hP)
                          (stepOK_trans (stepOK_of_LT (expectT_stepLT _ _ _ _ hE4))
                            (stepOK_trans (stepOK_of_LT (expectT_stepLT _ _ _ _ hE5))
                              (stepOK_trans (stepOK_symbols _ _)
                                (parseRestrictedBody_ok _ _ _ _ _ hB)))))))
                split at h
                · exact Except.noConfusion h
                · rename_i st10 hRet
                  simp only [Except.ok.injEq, Prod.mk.injEq] at h
                  obtain ⟨_, h2⟩ := h
                  subst h2
                  have hS10 : stepOK st8 st10 := by
                    cases hc8 : st8.current with
                    | none =>
                      rw [hc8] at hRet
                      simp only [Except.ok.injEq] at hRet
                      subst hRet
                      exact stepOK_refl _
                    | some t4 =>
                      rw [hc8] at hRet
                      dsimp only at hRet
                      split at hRet
                      · try dsimp only at hRet
                        cases hc9 : (adv st8).current with
                        | none => rw [hc9] at hRet; exact Except.noConfusion hRet
                        | some t5 =>
                          rw [hc9] at hRet
                          dsimp only at hRet
                          split at hRet
                          · simp only [Except.ok.injEq] at hRet
                            subst hRet
                            exact stepOK_trans (adv_stepOK _) (adv_stepOK _)
                          · simp only [Except.ok.injEq] at hRet
                            subst hRet
                            exact adv_stepOK _
                      · simp only [Except.ok.injEq] at hRet
                        subst hRet
                        exact stepOK_refl _
                  exact stepLT_trans hS8 (stepOK_trans hS10 (consumeOptEnd_stepOK st10))

/-- The loop-body loop never backtracks. -/
theorem parseLoopBody_ok : ∀ (fuel : Nat) (st : PSt) (acc : List Node)
    (r : List Node × PSt), parseLoopBody fuel st acc = .ok r → stepOK st r.2 := by
  intro fuel
  induction fuel with
  | zero => intro st acc r h; exact Except.noConfusion h
  | succ f ih =>
    intro st acc r h
    simp only [parseLoopBody] at h
    cases hc : st.current with
    | none =>
      rw [hc] at h
      try dsimp only at h
      simp only [Except.ok.injEq] at h
      subst h
      exact stepOK_refl st
    | some t =>
      rw [hc] at h
      try dsimp only at h
      split at h
      · simp only [Except.ok.injEq] at h
        subst h
        exact stepOK_refl st
      · split at h
        · cases hF : parsePinDeclaration st with
          | error e => rw [hF] at h; exact Except.noConfusion h
          | ok p =>
            obtain ⟨n1, st2⟩ := p
            rw [hF] at h
            try dsimp only at h
            exact stepOK_trans (stepOK_of_LT (parsePinDeclaration_ok _ _ _ hF)) (ih _ _ _ h)
        · split at h
          · cases hF : parseFunctionCall st with
            | error e => rw [hF] at h; exact Except.noConfusion h
            | ok p =>
              obtain ⟨n1, st2⟩ := p
              rw [hF] at h
              try dsimp only at h
              exact stepOK_trans (stepOK_of_LT (parseFunctionCall_ok _ _ _ hF)) (ih _ _ _ h)
          · split at h
            · cases hF : parseIf st with
              | error e => rw [hF] at h; exact Except.noConfusion h
              | ok p =>
                obtain ⟨n1, st2⟩ := p
                rw [hF] at h
                try dsimp only at h
                exact stepOK_trans (stepOK_of_LT (parseIf_ok _ _ _ hF)) (ih _ _ _ h)
            · split at h
              · cases hF : parseWhile st with
                | error e => rw [hF] at h; exact Except.noConfusion h
                | ok p =>
                  obtain ⟨n1, st2⟩ := p
                  rw [hF] at h
                  try dsimp only at h
                  exact stepOK_trans (stepOK_of_LT (parseWhile_ok _ _ _ hF)) (ih _ _ _ h)
              · split at h
                · cases hF : parseFor st with
                  | error e => rw [hF] at h; exact Except.noConfusion h
                  | ok p =>
                    obtain ⟨n1, st2⟩ := p
                    rw [hF] at h
                    try dsimp only at h
                    exact stepOK_trans (stepOK_of_LT (parseFor_ok _ _ _ hF)) (ih _ _ _ h)
                · exact stepOK_trans (adv_stepOK st) (ih _ _ _ h)

/-- The loop-body loop always advances, so ample fuel is never exhausted. -/
theorem parseLoopBody_noFuel : ∀ (fuel : Nat) (st : PSt) (acc : List Node),
    msr st < fuel → parseLoopBody fuel st acc ≠ .error .fuel := by
  intro fuel
  induction fuel with
  | zero => intro st acc hm; exact absurd hm (Nat.not_lt_zero _)
  | succ f ih =>
    intro st acc hm h
    simp only [parseLoopBody] at h
    cases hc : st.current with
    | none => rw [hc] at h; exact Except.noConfusion h
    | some t =>
      rw [hc] at h
      try dsimp only at h
      split at h
      · exact Except.noConfusion h
      · split at h
        · cases hF : parsePinDeclaration st with
          | error e =>
            rw [hF] at h
            injection h with he
            subst he
            exact parsePinDeclaration_noFuel st hF
          | ok p =>
            obtain ⟨n1, st2⟩ := p
            rw [hF] at h
            try dsimp only at h
            exact ih _ _ (Nat.lt_of_lt_of_le (parsePinDeclaration_ok _ _ _ hF).2
              (Nat.lt_succ_iff.mp hm)) h
        · split at h
          · cases hF : parseFunctionCall st with
            | error e =>
              rw [hF] at h
              injection h with he
              subst he
              exact parseFunctionCall_noFuel st hF
            | ok p =>
              obtain ⟨n1, st2⟩ := p
              rw [hF] at h
              try dsimp only at h
              exact ih _ _ (Nat.lt_of_lt_of_le (parseFunctionCall_ok _ _ _ hF).2
                (Nat.lt_succ_iff.mp hm)) h
          · split at h
            · cases hF : parseIf st with
              | error e =>
                rw [hF] at h
                injection h with he
                subst he
                exact parseIf_noFuel st hF
              | ok p =>
                obtain ⟨n1, st2⟩ := p
                rw [hF] at h
                try dsimp only at h
                exact ih _ _ (Nat.lt_of_lt_of_le (parseIf_ok _ _ _ hF).2
                  (Nat.lt_succ_iff.mp hm)) h
            · split at h
              · cases hF : parseWhile st with
                | error e =>
                  rw [hF] at h
                  injection h with he
                  subst he
                  exact parseWhile_noFuel st hF
                | ok p =>
                  obtain ⟨n1, st2⟩ := p
                  rw [hF] at h
                  try dsimp only at h
                  exact ih _ _ (Nat.lt_of_lt_of_le (parseWhile_ok _ _ _ hF).2
                    (Nat.lt_succ_iff.mp hm)) h
              · split at h
                · cases hF : parseFor st with
                  | error e =>
                    rw [hF] at h
                    injection h with he
                    subst he
                    exact parseFor_noFuel st hF
                  | ok p =>
                    obtain ⟨n1, st2⟩ := p
                    rw [hF] at h
                    try dsimp only at h
                    exact ih _ _ (Nat.lt_of_lt_of_le (parseFor_ok _ _ _ hF).2
                      (Nat.lt_succ_iff.mp hm)) h
                · exact ih _ _ (Nat.lt_of_lt_of_le (adv_msr_lt st t hc)
                    (Nat.lt_succ_iff.mp hm)) h

/-- `parse_loop` never backtracks and consumes at least one token. -/
theorem parseLoop_ok (st : PSt) (n : Node) (stF : PSt)
    (h : parseLoop st = .ok (n, stF)) : stepLT st stF := by
  unfold parseLoop at h
  cases hE1 : expectT st "LOOP" with
  | error e => rw [hE1] at h; exact Except.noConfusion h
  | ok p1 =>
    obtain ⟨t0, st1⟩ := p1
    rw [hE1] at h
    try dsimp only at h
    cases hE2 : expectT st1 "COLON" with
    | error e => rw [hE2] at h; exact Except.noConfusion h
    | ok p2 =>
      obtain ⟨t1, st2⟩ := p2
      rw [hE2] at h
      try dsimp only at h
      cases hB : parseLoopBody (msr st2 + 1) st2 [] with
      | error e => rw [hB] at h; exact Except.noConfusion h
      | ok p3 =>
        obtain ⟨children, st3⟩ := p3
        rw [hB] at h
        try dsimp only at h
        simp only [Except.ok.injEq, Prod.mk.injEq] at h
        obtain ⟨_, h2⟩ := h
        subst h2
        exact stepLT_trans (expectT_stepLT _ _ _ _ hE1)
          (stepOK_trans (stepOK_of_LT (expectT_stepLT _ _ _ _ hE2))
            (stepOK_trans (parseLoopBody_ok _ _ _ _ hB) (consumeOptEnd_stepOK st3)))

/-- `parse_loop` cannot exhaust fuel. -/
theorem parseLoop_noFuel (st : PSt) : parseLoop st ≠ .error .fuel := by
  intro h
  unfold parseLoop at h
  cases hE1 : expectT st "LOOP" with
  | error e =>
    rw [hE1] at h
    injection h with he
    subst he
    exact expectT_noFuel _ _ hE1
  | ok p1 =>
    obtain ⟨t0, st1⟩ := p1
    rw [hE1] at h
    try dsimp only at h
    cases hE2 : expectT st1 "COLON" with
    | error e =>
      rw [hE2] at h
      injection h with he
      subst he
      exact expectT_noFuel _ _ hE2
    | ok p2 =>
      obtain ⟨t1, st2⟩ := p2
      rw [hE2] at h
      try dsimp only at h
      cases hB : parseLoopBody (msr st2 + 1) st2 [] with
      | error e =>
        rw [hB] at h
        injection h with he
        subst he
        exact parseLoopBody_noFuel _ st2 [] (Nat.lt_succ_self _) hB
      | ok p3 =>
        obtain ⟨children, st3⟩ := p3
        rw [hB] at h
        exact Except.noConfusion h

/-- The top-level dispatch loop never backtracks, and a normal return stops
with the current token exhausted or at the end marker. -/
theorem parseTop_ok : ∀ (fuel : Nat) (st : PSt) (acc ns : List Node) (st2 : PSt),
    parseTop fuel st acc = .ok (ns, st2) →
    stepOK st st2 ∧
      (st2.current = none ∨ ∃ t, st2.current = some t ∧ t.ty = "EOF") := by
  intro fuel
  induction fuel with
  | zero => intro st acc ns st2 h; exact Except.noConfusion h
  | succ f ih =>
    intro st acc ns st2 h
    simp only [parseTop] at h
    cases hc : st.current with
    | none =>
      rw [hc] at h
      try dsimp only at h
      simp only [Except.ok.injEq, Prod.mk.injEq] at h
      obtain ⟨_, h2⟩ := h
      subst h2
      exact ⟨stepOK_refl st, Or.inl hc⟩
    | some t =>
      rw [hc] at h
      try dsimp only at h
      split at h
      · rename_i hEOF
        simp only [Except.ok.injEq, Prod.mk.injEq] at h
        obtain ⟨_, h2⟩ := h
        subst h2
        exact ⟨stepOK_refl st, Or.inr ⟨t, hc, hEOF⟩⟩
      · split at h
        · cases hF : parsePinDeclaration st with
          | error e => rw [hF] at h; exact Except.noConfusion h
          | ok p =>
            obtain ⟨n1, stN⟩ := p
            rw [hF] at h
            try dsimp only at h
            obtain ⟨hS, hC⟩ := ih _ _ _ _ h
            exact ⟨stepOK_trans (stepOK_of_LT (parsePinDeclaration_ok _ _ _ hF)) hS, hC⟩
        · split at h
          · cases hF : parseFunctionDeclaration st with
            | error e => rw [hF] at h; exact Except.noConfusion h
            | ok p =>
              obtain ⟨n1, stN⟩ := p
              rw [hF] at h
              try dsimp only at h
              obtain ⟨hS, hC⟩ := ih _ _ _ _ h
              exact ⟨stepOK_trans (stepOK_of_LT (parseFunctionDeclaration_ok _ _ _ hF)) hS, hC⟩
          · split at h
            · cases hF : parseLoop st with
              | error e => rw [hF] at h; exact Except.noConfusion h
              | ok p =>
                obtain ⟨n1, stN⟩ := p
                rw [hF] at h
                try dsimp only at h
                obtain ⟨hS, hC⟩ := ih _ _ _ _ h
                exact ⟨stepOK_trans (stepOK_of_LT (parseLoop_ok _ _ _ hF)) hS, hC⟩
            · split at h
              · cases hF : parseSerialBegin st with
                | error e => rw [hF] at h; exact Except.noConfusion h
                | ok p =>
                  obtain ⟨n1, stN⟩ := p
                  rw [hF] at h
                  try dsimp only at h
                  obtain ⟨hS, hC⟩ := ih _ _ _ _ h
                  exact ⟨stepOK_trans (stepOK_of_LT (parseSerialBegin_ok _ _ _ hF)) hS, hC⟩
              · split at h
                · cases hF : parseVariableDeclaration st with
                  | error e => rw [hF] at h; exact Except.noConfusion h
                  | ok p =>
                    obtain ⟨n1, stN⟩ := p
                    rw [hF] at h
                    try dsimp only at h
                    obtain ⟨hS, hC⟩ := ih _ _ _ _ h
                    exact ⟨stepOK_trans (stepOK_of_LT (parseVariableDeclaration_ok _ _ _ hF)) hS, hC⟩
                · split at h
                  · cases hF : parseAssignment st with
                    | error e => rw [hF] at h; exact Except.noConfusion h
                    | ok p =>
                      obtain ⟨n1, stN⟩ := p
                      rw [hF] at h
                      try dsimp only at h
                      obtain ⟨hS, hC⟩ := ih _ _ _ _ h
                      exact ⟨stepOK_trans (stepOK_of_LT (parseAssignment_ok _ _ _ hF)) hS, hC⟩
                  · split at h
                    · cases hF : parseFunctionCall st with
                      | error e => rw [hF] at h; exact Except.noConfusion h
                      | ok p =>
                        obtain ⟨n1, stN⟩ := p
                        rw [hF] at h
                        try dsimp only at h
                        obtain ⟨hS, hC⟩ := ih _ _ _ _ h
                        exact ⟨stepOK_trans (stepOK_of_LT (parseFunctionCall_ok _ _ _ hF)) hS, hC⟩
                    · obtain ⟨hS, hC⟩ := ih _ _ _ _ h
                      exact ⟨stepOK_trans (adv_stepOK st) hS, hC⟩

/-- The top-level loop exhausts no ample fuel budget when the token list
contains no function-declaration keyword. -/
theorem parseTop_noFuel : ∀ (fuel : Nat) (st : PSt) (acc : List Node),
    (∀ t ∈ st.tokens, t.ty ≠ "FUNCTION") → wfP st → msr st < fuel →
    parseTop fuel st acc ≠ .error .fuel := by
  intro fuel
  induction fuel with
  | zero => intro st acc _ _ hm; exact absurd hm (Nat.not_lt_zero _)
  | succ f ih =>
    intro st acc hnf hw hm h
    simp only [parseTop] at h
    cases hc : st.current with
    | none => rw [hc] at h; exact Except.noConfusion h
    | some t =>
      rw [hc] at h
      try dsimp only at h
      split at h
      · exact Except.noConfusion h
      · split at h
        · cases hF : parsePinDeclaration st with
          | error e =>
            rw [hF] at h
            injection h with he
            subst he
            exact parsePinDeclaration_noFuel st hF
          | ok p =>
            obtain ⟨n1, stN⟩ := p
            rw [hF] at h
            try dsimp only at h
            have hS := parsePinDeclaration_ok _ _ _ hF
            exact ih _ _ (fun t2 ht2 => hnf t2 (hS.1.1 ▸ ht2)) (hS.1.2.2.2 hw)
              (Nat.lt_of_lt_of_le hS.2 (Nat.lt_succ_iff.mp hm)) h
        · split at h
          · rename_i hFn
            exact absurd hFn (hnf t (wfP_mem st t hw hc))
          · split at h
            · cases hF : parseLoop st with
              | error e =>
                rw [hF] at h
                injection h with he
                subst he
                exact parseLoop_noFuel st hF
              | ok p =>
                obtain ⟨n1, stN⟩ := p
                rw [hF] at h
                try dsimp only at h
                have hS := parseLoop_ok _ _ _ hF
                exact ih _ _ (fun t2 ht2 => hnf t2 (hS.1.1 ▸ ht2)) (hS.1.2.2.2 hw)
                  (Nat.lt_of_lt_of_le hS.2 (Nat.lt_succ_iff.mp hm)) h
            · split at h
              · cases hF : parseSerialBegin st with
                | error e =>
                  rw [hF] at h
                  injection h with he
                  subst he
                  exact parseSerialBegin_noFuel st hF
                | ok p =>
                  obtain ⟨n1, stN⟩ := p
                  rw [hF] at h
                  try dsimp only at h
                  have hS := parseSerialBegin_ok _ _ _ hF
                  exact ih _ _ (fun t2 ht2 => hnf t2 (hS.1.1 ▸ ht2)) (hS.1.2.2.2 hw)
                    (Nat.lt_of_lt_of_le hS.2 (Nat.lt_succ_iff.mp hm)) h
              · split at h
                · cases hF : parseVariableDeclaration st with
                  | error e =>
                    rw [hF] at h
                    injection h with he
                    subst he
                    exact parseVariableDeclaration_noFuel st hF
                  | ok p =>
                    obtain ⟨n1, stN⟩ := p
                    rw [hF] at h
                    try dsimp only at h
                    have hS := parseVariableDeclaration_ok _ _ _ hF
                    exact ih _ _ (fun t2 ht2 => hnf t2 (hS.1.1 ▸ ht2)) (hS.1.2.2.2 hw)
                      (Nat.lt_of_lt_of_le hS.2 (Nat.lt_succ_iff.mp hm)) h
                · split at h
                  · cases hF : parseAssignment st with
                    | error e =>
                      rw [hF] at h
                      injection h with he
                      subst he
                      exact parseAssignment_noFuel st hF
                    | ok p =>
                      obtain ⟨n1, stN⟩ := p
                      rw [hF] at h
                      try dsimp only at h
                      have hS := parseAssignment_ok _ _ _ hF
                      exact ih _ _ (fun t2 ht2 => hnf t2 (hS.1.1 ▸ ht2)) (hS.1.2.2.2 hw)
                        (Nat.lt_of_lt_of_le hS.2 (Nat.lt_succ_iff.mp hm)) h
                  · split at h
                    · cases hF : parseFunctionCall st with
                      | error e =>
                        rw [hF] at h
                        injection h with he
                        subst he
                        exact parseFunctionCall_noFuel st hF
                      | ok p =>
                        obtain ⟨n1, stN⟩ := p
                        rw [hF] at h
                        try dsimp only at h
                        have hS := parseFunctionCall_ok _ _ _ hF
                        exact ih _ _ (fun t2 ht2 => hnf t2 (hS.1.1 ▸ ht2)) (hS.1.2.2.2 hw)
                          (Nat.lt_of_lt_of_le hS.2 (Nat.lt_succ_iff.mp hm)) h
                    · have hS := adv_stepOK st
                      exact ih _ _ (fun t2 ht2 => hnf t2 (hS.1 ▸ ht2)) (hS.2.2.2 hw)
                        (Nat.lt_of_lt_of_le (adv_msr_lt st t hc) (Nat.lt_succ_iff.mp hm)) h

/-- `parse` terminates on every token list free of the function-declaration
keyword. -/
theorem parseProgram_noFuel : ∀ toks : List Tok,
    (∀ t ∈ toks, t.ty ≠ "FUNCTION") → parseProgram toks ≠ .error .fuel := by
  intro toks hnf
  unfold parseProgram
  have htk : (initPSt toks).tokens = toks := by
    unfold initPSt adv
    split <;> rfl
  exact parseTop_noFuel _ _ [] (fun t ht => hnf t (htk ▸ ht)) (initPSt_wfP toks)
    (Nat.lt_succ_self _)

/-- On the stuck state of `функция ф(5)` the parameter loop makes no
progress: it exhausts every fuel budget, the embedded image of a genuine
infinite loop. -/
theorem parseFDParams_stuck : ∀ fuel : Nat,
    parseFDParams fuel stuckSt [] = .error .fuel := by
  intro fuel
  induction fuel with
  | zero => rfl
  | succ f ih => exact ih

/-- Claim C9, amended: the parser never backtracks — on every successful run
of the top-level dispatch loop the token list is unchanged and the cursor
has not moved backwards — and a normal return stops at the end marker (the
current token is the EOF token, or the stream is exhausted).  But `parse`
does NOT terminate on every finite token sequence: the parameter loop of
`parse_function_declaration` makes no advance on a token that is neither a
parameter type nor a closing parenthesis, so from the state it reaches on
the tokens of `функция ф(5)` it exhausts every fuel budget; termination
does hold for every token list free of the function-declaration keyword. -/
theorem parser_no_backtrack_and_conditional_termination :
    (∀ (fuel : Nat) (st : PSt) (acc ns : List Node) (st2 : PSt),
        parseTop fuel st acc = .ok (ns, st2) →
        st2.tokens = st.tokens ∧ st.pos ≤ st2.pos ∧
          (st2.current = none ∨ ∃ t, st2.current = some t ∧ t.ty = "EOF")) ∧
    (∀ fuel : Nat, parseFDParams fuel stuckSt [] = .error .fuel) ∧
    (∀ toks : List Tok, (∀ t ∈ toks, t.ty ≠ "FUNCTION") →
        parseProgram toks ≠ .error .fuel) := by
  refine ⟨?_, parseFDParams_stuck, parseProgram_noFuel⟩
  intro fuel st acc ns st2 h
  obtain ⟨hok, hcur⟩ := parseTop_ok fuel st acc ns st2 h
  exact ⟨hok.1, hok.2.1, hcur⟩

set_option maxHeartbeats 4000000 in
/-- Witness for `parser_no_backtrack_and_conditional_termination`: the
empty state for the dispatch-loop part, a budget of 5 on the stuck state,
and the blink program (which declares no function) for termination. -/
theorem parser_no_backtrack_and_conditional_termination_witness :
    ((⟨[], 0, none, []⟩ : PSt).tokens = (⟨[], 0, none, []⟩ : PSt).tokens ∧
      (⟨[], 0, none, []⟩ : PSt).pos ≤ (⟨[], 0, none, []⟩ : PSt).pos ∧
      ((⟨[], 0, none, []⟩ : PSt).current = none ∨
        ∃ t, (⟨[], 0, none, []⟩ : PSt).current = some t ∧ t.ty = "EOF")) ∧
    parseFDParams 5 stuckSt [] = .error .fuel ∧
    parseProgram (tokenize blinkSrc) ≠ .error .fuel :=
  ⟨parser_no_backtrack_and_conditional_termination.1 1 ⟨[], 0, none, []⟩ [] []
      ⟨[], 0, none, []⟩ rfl,
   parser_no_backtrack_and_conditional_termination.2.1 5,
   parser_no_backtrack_and_conditional_termination.2.2 (tokenize blinkSrc)
     (by decide)⟩

end AScript
